import Mathlib

/-!
Shallow embedding of `bin/run_cp2k.py`: the CP2K run supervisor, its
line-oriented telemetry extractor (`parse_line_for_metrics`), the aggregated
state store (`RunState` and `MetricSeries`), the snapshot persistence
protocol (`write_snapshot`), the reader/worker error handling
(`run_cp2k_process`, `make_runner`) and the CLI precondition checks (`main`,
`which`, `basic_run`).

Modelling conventions:
* Python floats are modelled as exact rationals (`ℚ`); the spec's scenarios
  state exact decimal values, and none of the verified properties depend on
  binary rounding.
* Python dicts used as telemetry blocks are modelled as association lists
  with unique keys (`dictInsert` replaces in place, like dict assignment).
* `time.time()` is an external input: every operation that reads the clock
  takes an explicit `now : ℚ` argument.
* Filesystem effects of the snapshot writer are modelled as an event log so
  that the write-to-temp-then-atomic-replace structure is visible.
-/

namespace RunCp2k

/-- Python `str.split()` whitespace set (ASCII subset; CP2K output is ASCII). -/
def pyIsSpace (c : Char) : Bool :=
  c = ' ' || c = '\t' || c = '\n' || c = '\r' || c = '\x0b' || c = '\x0c'

/-- Python `str.lower()` on a character (ASCII case mapping suffices here). -/
def pyLowerChar (c : Char) : Char :=
  if 'A' ≤ c ∧ c ≤ 'Z' then Char.ofNat (c.toNat + 32) else c

/-- Python `str.lower()`. -/
def pyLower (cs : List Char) : List Char := cs.map pyLowerChar

/-- Python `str.rstrip("\n")`: drop trailing newline characters. -/
def rstripNl (cs : List Char) : List Char :=
  (cs.reverse.dropWhile (fun c => c = '\n')).reverse

/-- List prefix test (the `str.startswith` used on raw lines). -/
def chPre : List Char → List Char → Bool
  | [], _ => true
  | _ :: _, [] => false
  | a :: as, b :: bs => a = b && chPre as bs

/-- Substring containment (Python's `needle in hay` on strings). -/
def chSub (needle : List Char) : List Char → Bool
  | [] => needle.isEmpty
  | c :: rest => chPre needle (c :: rest) || chSub needle rest

/-- `needle in hay` with a string-literal needle. -/
def containsSub (needle : String) (hay : List Char) : Bool :=
  chSub needle.toList hay

/-- `hay.startswith(needle)` with a string-literal needle. -/
def startsWithStr (needle : String) (hay : List Char) : Bool :=
  chPre needle.toList hay

/-- Worker for `splitWs`: `acc` holds the current word reversed. -/
def splitWsAux : List Char → List Char → List (List Char)
  | [], acc => if acc.isEmpty then [] else [acc.reverse]
  | c :: rest, acc =>
    if pyIsSpace c then
      if acc.isEmpty then splitWsAux rest []
      else acc.reverse :: splitWsAux rest []
    else splitWsAux rest (c :: acc)

/-- Python `str.split()`: split on whitespace runs, discarding empty parts. -/
def splitWs (cs : List Char) : List (List Char) := splitWsAux cs []

/-- `token.replace("D", "E")` (normalize Fortran exponent markers). -/
def replaceDtoE (cs : List Char) : List Char :=
  cs.map (fun c => if c = 'D' then 'E' else c)

/-- Numeric value of a digit run. -/
def digitsVal (cs : List Char) : ℕ :=
  cs.foldl (fun a c => a * 10 + (c.toNat - 48)) 0

/-- Mantissa of a Python float literal: `digits[.digits?]` or `.digits`.
Returns the value and the unconsumed characters. -/
def parseMantissa (cs : List Char) : Option (ℚ × List Char) :=
  let intPart := cs.takeWhile Char.isDigit
  let rest := cs.dropWhile Char.isDigit
  match rest with
  | '.' :: rest2 =>
    let fracPart := rest2.takeWhile Char.isDigit
    let rest3 := rest2.dropWhile Char.isDigit
    if intPart.isEmpty && fracPart.isEmpty then none
    else some ((digitsVal intPart : ℚ) +
      (digitsVal fracPart : ℚ) / ((10 : ℚ) ^ fracPart.length), rest3)
  | _ => if intPart.isEmpty then none else some ((digitsVal intPart : ℚ), rest)

/-- Python `float(token)` on a whitespace-free token, as an exact rational.
Covers the sign/digits/point/exponent grammar produced by CP2K; the exotic
accepted spellings (`inf`, `nan`, digit underscores) are outside the model —
no claim depends on them and they do not occur in `MD|` telemetry lines. -/
def pyFloat (cs0 : List Char) : Option ℚ :=
  let (sgn, cs1) : ℚ × List Char :=
    match cs0 with
    | '+' :: r => (1, r)
    | '-' :: r => (-1, r)
    | r => (1, r)
  match parseMantissa cs1 with
  | none => none
  | some (m, rest) =>
    match rest with
    | [] => some (sgn * m)
    | c :: r2 =>
      if c = 'e' ∨ c = 'E' then
        let (esgn, r3) : ℤ × List Char :=
          match r2 with
          | '+' :: t => (1, t)
          | '-' :: t => (-1, t)
          | t => (1, t)
        let ds := r3.takeWhile Char.isDigit
        let r4 := r3.dropWhile Char.isDigit
        if ds.isEmpty ∨ !r4.isEmpty then none
        else some (sgn * m * (10 : ℚ) ^ (esgn * (digitsVal ds : ℤ)))
      else none

/-- `_is_float(token)` from the source: `float(token.replace("D","E"))`
succeeds. -/
def isFloatTok (cs : List Char) : Bool := (pyFloat (replaceDtoE cs)).isSome

/-- `_to_float(token)` from the source, merged with the `_is_float` filter:
the numeric tokens of a line, in order
(`[_to_float(tok) for tok in text.split() if _is_float(tok)]`). -/
def lineNumbers (text : List Char) : List ℚ :=
  (splitWs text).filterMap (fun tok => pyFloat (replaceDtoE tok))

/-- Python `round()` on an exact value: round half to even, as used by
`int(round(value))` for the step index. -/
def pyRound (q : ℚ) : ℤ :=
  let f := ⌊q⌋
  if q - (f : ℚ) < 1 / 2 then f
  else if (1 : ℚ) / 2 < q - (f : ℚ) then f + 1
  else if f % 2 = 0 then f else f + 1

/-- A telemetry block: a Python dict from field names to numbers, as an
association list with unique keys. -/
def Block := List (String × ℚ)
deriving DecidableEq, Inhabited

/-- Dict lookup, `block.get(key)`. -/
def dictGet : Block → String → Option ℚ
  | [], _ => none
  | (k', v) :: rest, k => if k' = k then some v else dictGet rest k

/-- Dict assignment `block[key] = value`: replace in place or append. -/
def dictInsert : Block → String → ℚ → Block
  | [], k, v => [(k, v)]
  | (k', v') :: rest, k, v =>
    if k' = k then (k, v) :: rest else (k', v') :: dictInsert rest k v

/-- The fifteen parallel time series of `MetricSeries`
(`@dataclass class MetricSeries`). -/
structure MetricSeries where
  steps : List (Option ℚ) := []
  time_fs : List (Option ℚ) := []
  conserved_energy : List (Option ℚ) := []
  cpu_time_per_step : List (Option ℚ) := []
  cpu_time_per_step_avg : List (Option ℚ) := []
  energy_drift_inst : List (Option ℚ) := []
  energy_drift_avg : List (Option ℚ) := []
  potential_inst : List (Option ℚ) := []
  potential_avg : List (Option ℚ) := []
  kinetic_inst : List (Option ℚ) := []
  kinetic_avg : List (Option ℚ) := []
  temperature_inst : List (Option ℚ) := []
  temperature_avg : List (Option ℚ) := []
  total_energy : List (Option ℚ) := []
  total_energy_avg : List (Option ℚ) := []
deriving DecidableEq

/-- `MetricSeries.add_block`: append `block.get(key)` to every series. -/
def MetricSeries.addBlock (m : MetricSeries) (b : Block) : MetricSeries where
  steps := m.steps ++ [dictGet b "step"]
  time_fs := m.time_fs ++ [dictGet b "time_fs"]
  conserved_energy := m.conserved_energy ++ [dictGet b "conserved_energy"]
  cpu_time_per_step := m.cpu_time_per_step ++ [dictGet b "cpu_time_per_step"]
  cpu_time_per_step_avg := m.cpu_time_per_step_avg ++ [dictGet b "cpu_time_per_step_avg"]
  energy_drift_inst := m.energy_drift_inst ++ [dictGet b "energy_drift_inst"]
  energy_drift_avg := m.energy_drift_avg ++ [dictGet b "energy_drift_avg"]
  potential_inst := m.potential_inst ++ [dictGet b "potential_inst"]
  potential_avg := m.potential_avg ++ [dictGet b "potential_avg"]
  kinetic_inst := m.kinetic_inst ++ [dictGet b "kinetic_inst"]
  kinetic_avg := m.kinetic_avg ++ [dictGet b "kinetic_avg"]
  temperature_inst := m.temperature_inst ++ [dictGet b "temperature_inst"]
  temperature_avg := m.temperature_avg ++ [dictGet b "temperature_avg"]
  total_energy := m.total_energy ++ [dictGet b "total_energy"]
  total_energy_avg := m.total_energy_avg ++ [dictGet b "total_energy_avg"]

/-- The fourteen field keys of `RunState._update_metric_value`'s mapping —
every metric key except the step index. -/
def metricKeys14 : List String :=
  ["time_fs", "conserved_energy", "cpu_time_per_step", "cpu_time_per_step_avg",
   "energy_drift_inst", "energy_drift_avg", "potential_inst", "potential_avg",
   "kinetic_inst", "kinetic_avg", "temperature_inst", "temperature_avg",
   "total_energy", "total_energy_avg"]

/-- The series list named by a mapped field key (`getattr(self.metrics, attr)`). -/
def MetricSeries.seriesGet (m : MetricSeries) (key : String) : List (Option ℚ) :=
  if key = "time_fs" then m.time_fs
  else if key = "conserved_energy" then m.conserved_energy
  else if key = "cpu_time_per_step" then m.cpu_time_per_step
  else if key = "cpu_time_per_step_avg" then m.cpu_time_per_step_avg
  else if key = "energy_drift_inst" then m.energy_drift_inst
  else if key = "energy_drift_avg" then m.energy_drift_avg
  else if key = "potential_inst" then m.potential_inst
  else if key = "potential_avg" then m.potential_avg
  else if key = "kinetic_inst" then m.kinetic_inst
  else if key = "kinetic_avg" then m.kinetic_avg
  else if key = "temperature_inst" then m.temperature_inst
  else if key = "temperature_avg" then m.temperature_avg
  else if key = "total_energy" then m.total_energy
  else if key = "total_energy_avg" then m.total_energy_avg
  else []

/-- `RunState._update_metric_value(key, index, value)` acting on the series
container: `series[index] = value` when the key is in the mapping and the
index is in range (`List.set` is the identity out of range, matching the
`if index < len(series)` guard).  The `value is None` early return is handled
at the call site, which only passes present values. -/
def MetricSeries.setValue (m : MetricSeries) (key : String) (index : ℕ)
    (value : ℚ) : MetricSeries :=
  if key = "time_fs" then { m with time_fs := m.time_fs.set index (some value) }
  else if key = "conserved_energy" then
    { m with conserved_energy := m.conserved_energy.set index (some value) }
  else if key = "cpu_time_per_step" then
    { m with cpu_time_per_step := m.cpu_time_per_step.set index (some value) }
  else if key = "cpu_time_per_step_avg" then
    { m with cpu_time_per_step_avg := m.cpu_time_per_step_avg.set index (some value) }
  else if key = "energy_drift_inst" then
    { m with energy_drift_inst := m.energy_drift_inst.set index (some value) }
  else if key = "energy_drift_avg" then
    { m with energy_drift_avg := m.energy_drift_avg.set index (some value) }
  else if key = "potential_inst" then
    { m with potential_inst := m.potential_inst.set index (some value) }
  else if key = "potential_avg" then
    { m with potential_avg := m.potential_avg.set index (some value) }
  else if key = "kinetic_inst" then
    { m with kinetic_inst := m.kinetic_inst.set index (some value) }
  else if key = "kinetic_avg" then
    { m with kinetic_avg := m.kinetic_avg.set index (some value) }
  else if key = "temperature_inst" then
    { m with temperature_inst := m.temperature_inst.set index (some value) }
  else if key = "temperature_avg" then
    { m with temperature_avg := m.temperature_avg.set index (some value) }
  else if key = "total_energy" then
    { m with total_energy := m.total_energy.set index (some value) }
  else if key = "total_energy_avg" then
    { m with total_energy_avg := m.total_energy_avg.set index (some value) }
  else m

/-- The serializable snapshot produced by `RunState._snapshot_locked`. -/
structure Snapshot where
  project : String
  logfile : String
  inputPath : String
  profileLabel : Option String
  modeLabel : Option String
  status : String
  runtime : ℚ
  returnCode : Option ℤ
  pid : Option ℤ
  tail : List String
  metrics : MetricSeries
  blocks : List Block
deriving DecidableEq

/-- Filesystem effects of the snapshot writer, kept as an event log so the
write-to-temp-then-atomic-replace structure of `write_snapshot` is provable.
The target file is only ever touched by `replaceFile` (`os.replace`), never
written directly. -/
inductive FsEv
  | writeTempFile (path : String) (content : Snapshot)
  | replaceFile (src : String) (dst : String)
deriving DecidableEq

/-- The aggregated state store (`class RunState`).  The lock serializes all
operations; in this sequential model each operation is a pure state
transition.  `lastSnapshotWrite` mirrors `_last_snapshot_write`, `fsEvents`
records the snapshot writer's filesystem effects. -/
structure RunState where
  project : String := "run"
  logfile : String := "run.out"
  inputPath : String := "run.inp"
  profileLabel : Option String := none
  modeLabel : Option String := none
  tail : List String := []
  metrics : MetricSeries := {}
  blocks : List Block := []
  startTime : ℚ := 0
  status : String := "launching"
  returnCode : Option ℤ := none
  pid : Option ℤ := none
  doneFlag : Bool := false
  cancel_requested : Bool := false
  lastStep : Option ℤ := none
  currentBlock : Option Block := none
  stateFile : Option String := none
  lastSnapshotWrite : ℚ := 0
  echoToStdout : Bool := false
  fsEvents : List FsEv := []
deriving DecidableEq

/-- A freshly constructed `RunState` (the `__init__` defaults; clock origin 0). -/
def initState : RunState := {}

/-- `time.time() - self.start_time` with the clock passed explicitly. -/
def RunState.runtimeAt (s : RunState) (now : ℚ) : ℚ := now - s.startTime

/-- `RunState._snapshot_locked`. -/
def RunState.snapshotLocked (s : RunState) (now : ℚ) : Snapshot where
  project := s.project
  logfile := s.logfile
  inputPath := s.inputPath
  profileLabel := s.profileLabel
  modeLabel := s.modeLabel
  status := s.status
  runtime := s.runtimeAt now
  returnCode := s.returnCode
  pid := s.pid
  tail := s.tail
  metrics := s.metrics
  blocks := s.blocks

/-- `path.with_suffix(path.suffix + ".tmp")`: for ordinary file names this
appends `.tmp` to the full name (`state.json` becomes `state.json.tmp`). -/
def tmpPathOf (path : String) : String := path ++ ".tmp"

/-- `RunState.write_snapshot(force=False)`: no state file registered — do
nothing; rate-limit a non-forced write to one per 0.5 s; otherwise record
the snapshot, serialize it to the temp path and atomically replace the
target (`os.replace`). `OSError` during the write is swallowed in the
source; the model records the successful effect. -/
def RunState.writeSnapshot (s : RunState) (force : Bool) (now : ℚ) : RunState :=
  match s.stateFile with
  | none => s
  | some path =>
    if ¬force ∧ now - s.lastSnapshotWrite < 1 / 2 then s
    else
      { s with
        lastSnapshotWrite := now
        fsEvents := s.fsEvents ++
          [FsEv.writeTempFile (tmpPathOf path) (s.snapshotLocked now),
           FsEv.replaceFile (tmpPathOf path) path] }

/-- `deque(maxlen=n)` push: append and evict from the front past capacity. -/
def dequePush (maxlen : ℕ) (xs : List String) (x : String) : List String :=
  let ys := xs ++ [x]
  if maxlen < ys.length then ys.drop (ys.length - maxlen) else ys

/-- `RunState.append_tail(line)`: push `line.rstrip("\n")` into the
100-element ring buffer, then a rate-limited snapshot write. -/
def RunState.appendTail (s : RunState) (line : String) (now : ℚ) : RunState :=
  let s' := { s with
    tail := dequePush 100 s.tail (String.mk (rstripNl line.toList)) }
  s'.writeSnapshot false now

/-- `RunState.set_state_file(path)`. -/
def RunState.setStateFile (s : RunState) (p : Option String) : RunState :=
  { s with stateFile := p }

/-- `RunState.is_block_open()`. -/
def RunState.isBlockOpen (s : RunState) : Bool := s.currentBlock.isSome

/-- `RunState.start_block()`: open a fresh empty record. -/
def RunState.startBlock (s : RunState) : RunState :=
  { s with currentBlock := some [] }

/-- One keyword argument of `set_block_values`: skip `None`, else assign. -/
def assignStep (acc : Block) (kv : String × Option ℚ) : Block :=
  match kv.2 with
  | none => acc
  | some v => dictInsert acc kv.1 v

/-- `RunState.set_block_values(**values)`: create the current block if
absent, then assign each non-None value (`self._current_block[key] = value`,
an unconditional dict assignment). -/
def RunState.setBlockValues (s : RunState) (values : List (String × Option ℚ)) :
    RunState :=
  let base := s.currentBlock.getD []
  { s with currentBlock := some (values.foldl assignStep base) }

/-- `int(q)` for the step index; steps are stored integral, where every
integer-division convention agrees. -/
def pyInt (q : ℚ) : ℤ := q.num / (q.den : ℤ)

/-- The first derived-total assignment of `finalize_block`:
`if block.get("total_energy") is None and potential is not None and kinetic
is not None: block["total_energy"] = potential + kinetic`. -/
def deriveTotalEnergy (b : Block) : Block :=
  if (dictGet b "total_energy").isNone ∧ (dictGet b "potential_inst").isSome ∧
      (dictGet b "kinetic_inst").isSome then
    dictInsert b "total_energy"
      ((dictGet b "potential_inst").getD 0 + (dictGet b "kinetic_inst").getD 0)
  else b

/-- The second derived-total assignment of `finalize_block`, reading from
the possibly already-extended block exactly as the source does. -/
def deriveTotalEnergyAvg (b : Block) : Block :=
  if (dictGet b "total_energy_avg").isNone ∧ (dictGet b "potential_avg").isSome ∧
      (dictGet b "kinetic_avg").isSome then
    dictInsert b "total_energy_avg"
      ((dictGet b "potential_avg").getD 0 + (dictGet b "kinetic_avg").getD 0)
  else b

/-- `RunState.finalize_block()`: discard an empty or step-less open record;
otherwise derive `total_energy` and `total_energy_avg` when absent and both
operands are present, append the finished block to `blocks` and to every
metric series, remember the last step, close the block, and write a
snapshot. -/
def RunState.finalizeBlock (s : RunState) (now : ℚ) : RunState :=
  match s.currentBlock with
  | none => { s with currentBlock := none }
  | some b =>
    if b.isEmpty ∨ (dictGet b "step").isNone then { s with currentBlock := none }
    else
      let b1 := deriveTotalEnergy b
      let b2 := deriveTotalEnergyAvg b1
      let s' := { s with
        blocks := s.blocks ++ [b2]
        metrics := s.metrics.addBlock b2
        lastStep :=
          match dictGet b2 "step" with
          | some v => some (pyInt v)
          | none => s.lastStep
        currentBlock := none }
      s'.writeSnapshot false now

/-- One keyword argument of `update_latest_block` in the open-block branch:
skip `None`, else assign into the open block and remember that something
was written. -/
def mergeStep (acc : Block × Bool) (kv : String × Option ℚ) : Block × Bool :=
  match kv.2 with
  | none => acc
  | some v => (dictInsert acc.1 kv.1 v, true)

/-- One keyword argument of `update_latest_block` in the amend branch: skip
`None`, else assign into the last finalized block and write through to the
metric series at `targetIndex` (`self._update_metric_value`). -/
def updStep (targetIndex : ℕ) (acc : Block × MetricSeries × Bool)
    (kv : String × Option ℚ) : Block × MetricSeries × Bool :=
  match kv.2 with
  | none => acc
  | some v => (dictInsert acc.1 kv.1 v, acc.2.1.setValue kv.1 targetIndex v, true)

/-- `RunState.update_latest_block(**values)`: merge non-None values into the
open block if one exists, else into the last finalized block (writing
through to the matching metric series at the same index), else do nothing;
snapshot only when something was written. -/
def RunState.updateLatestBlock (s : RunState) (values : List (String × Option ℚ))
    (now : ℚ) : RunState :=
  match s.currentBlock with
  | some b =>
    let folded := values.foldl mergeStep (b, false)
    let s' := { s with currentBlock := some folded.1 }
    if folded.2 then s'.writeSnapshot false now else s'
  | none =>
    if s.blocks.isEmpty then s
    else
      let targetIndex := s.blocks.length - 1
      let folded := values.foldl (updStep targetIndex)
        (s.blocks.getLastD [], s.metrics, false)
      let s' := { s with
        blocks := s.blocks.set targetIndex folded.1
        metrics := folded.2.1 }
      if folded.2.2 then s'.writeSnapshot false now else s'

/-- `RunState.set_pid(pid)`. -/
def RunState.setPid (s : RunState) (p : ℤ) : RunState := { s with pid := some p }

/-- `RunState.mark_status(status)`: sets the status field and nothing else —
in particular it performs no snapshot write. -/
def RunState.markStatus (s : RunState) (st : String) : RunState :=
  { s with status := st }

/-- `RunState.finalize(return_code)`: record the exit code, derive the
terminal status, set the done event and force a snapshot write. -/
def RunState.finalizeRun (s : RunState) (code : ℤ) (now : ℚ) : RunState :=
  let s' := { s with
    returnCode := some code
    status := if code = 0 then "completed" else "failed (" ++ toString code ++ ")"
    doneFlag := true }
  s'.writeSnapshot true now

/-- `RunState.request_cancel()`: one-way flag. -/
def RunState.requestCancel (s : RunState) : RunState :=
  { s with cancel_requested := true }

/-- `RunState.cancelled()`. -/
def RunState.cancelledFlag (s : RunState) : Bool := s.cancel_requested

/-- `parse_line_for_metrics(line, state)`: the streaming telemetry
extractor, translated branch for branch from the source. -/
def parseLineForMetrics (line : String) (now : ℚ) (s : RunState) : RunState :=
  let text := rstripNl line.toList
  if text.all pyIsSpace then s
  else
    let lower := pyLower text
    if startsWithStr " MD|" text then
      if startsWithStr " MD| ***" text then
        if s.isBlockOpen then s.finalizeBlock now else s.startBlock
      else if !s.isBlockOpen then s
      else
        let numbers := lineNumbers text
        let s1 :=
          if containsSub "step number" lower then
            match numbers.getLast? with
            | some v => s.setBlockValues [("step", some ((pyRound v : ℤ) : ℚ))]
            | none => s
          else if containsSub "time [fs]" lower then
            match numbers.head? with
            | some v => s.setBlockValues [("time_fs", some v)]
            | none => s
          else if containsSub "conserved quantity" lower then
            match numbers.head? with
            | some v => s.setBlockValues [("conserved_energy", some v)]
            | none => s
          else if containsSub "cpu time per md step" lower then
            s.setBlockValues
              [("cpu_time_per_step", numbers.head?),
               ("cpu_time_per_step_avg", numbers.get? 1)]
          else if containsSub "energy drift per atom" lower then
            s.setBlockValues
              [("energy_drift_inst", numbers.head?),
               ("energy_drift_avg", numbers.get? 1)]
          else if containsSub "potential energy" lower then
            s.setBlockValues
              [("potential_inst", numbers.head?),
               ("potential_avg", numbers.get? 1)]
          else if containsSub "kinetic energy" lower then
            s.setBlockValues
              [("kinetic_inst", numbers.head?),
               ("kinetic_avg", numbers.get? 1)]
          else if containsSub "temperature" lower then
            s.setBlockValues
              [("temperature_inst", numbers.head?),
               ("temperature_avg", numbers.get? 1)]
          else s
        s1.writeSnapshot false now
    else if containsSub "energy|" lower ∧ containsSub "total force_eval" lower then
      let numbers := lineNumbers text
      match numbers.getLast? with
      | some v => s.updateLatestBlock [("total_energy", some v)] now
      | none => s
    else s

/-- Feed a sequence of output lines through the extractor (the reader loop's
calls to `parse_line_for_metrics`, with a constant clock). -/
def feedLines (lines : List String) (s : RunState) : RunState :=
  lines.foldl (fun st l => parseLineForMetrics l 0 st) s

/-! ### Basic lemmas about dict blocks and the snapshot writer -/

theorem dictGet_insert_self (d : Block) (k : String) (v : ℚ) :
    dictGet (dictInsert d k v) k = some v := by
  induction d with
  | nil => simp [dictInsert, dictGet]
  | cons hd tl ih =>
    by_cases h : hd.1 = k
    · simp [dictInsert, dictGet, h]
    · simp [dictInsert, dictGet, h, ih]

theorem dictGet_insert_ne (d : Block) (k k' : String) (v : ℚ) (h : k' ≠ k) :
    dictGet (dictInsert d k v) k' = dictGet d k' := by
  have hne : ¬(k = k') := fun he => h he.symm
  induction d with
  | nil => simp [dictInsert, dictGet, hne]
  | cons hd tl ih =>
    by_cases hk : hd.1 = k
    · subst hk
      simp [dictInsert, dictGet, hne]
    · by_cases hk' : hd.1 = k'
      · simp [dictInsert, dictGet, hk, hk', h]
      · simp [dictInsert, dictGet, hk, hk', ih]

theorem dictGet_insert_isSome (d : Block) (k k' : String) (v : ℚ)
    (h : (dictGet d k').isSome = true) :
    (dictGet (dictInsert d k v) k').isSome = true := by
  by_cases hk : k' = k
  · subst hk
    simp [dictGet_insert_self]
  · rwa [dictGet_insert_ne d k k' v hk]

theorem dictGet_some_ne_nil (d : Block) (k : String) (v : ℚ)
    (h : dictGet d k = some v) : d ≠ [] := by
  intro hnil
  subst hnil
  simp [dictGet] at h

theorem writeSnapshot_blocks (s : RunState) (force : Bool) (now : ℚ) :
    (s.writeSnapshot force now).blocks = s.blocks := by
  unfold RunState.writeSnapshot
  cases s.stateFile <;> simp
  split <;> rfl

theorem writeSnapshot_metrics (s : RunState) (force : Bool) (now : ℚ) :
    (s.writeSnapshot force now).metrics = s.metrics := by
  unfold RunState.writeSnapshot
  cases s.stateFile <;> simp
  split <;> rfl

theorem writeSnapshot_currentBlock (s : RunState) (force : Bool) (now : ℚ) :
    (s.writeSnapshot force now).currentBlock = s.currentBlock := by
  unfold RunState.writeSnapshot
  cases s.stateFile <;> simp
  split <;> rfl

theorem writeSnapshot_status (s : RunState) (force : Bool) (now : ℚ) :
    (s.writeSnapshot force now).status = s.status := by
  unfold RunState.writeSnapshot
  cases s.stateFile <;> simp
  split <;> rfl

theorem writeSnapshot_returnCode (s : RunState) (force : Bool) (now : ℚ) :
    (s.writeSnapshot force now).returnCode = s.returnCode := by
  unfold RunState.writeSnapshot
  cases s.stateFile <;> simp
  split <;> rfl

theorem writeSnapshot_tail (s : RunState) (force : Bool) (now : ℚ) :
    (s.writeSnapshot force now).tail = s.tail := by
  unfold RunState.writeSnapshot
  cases s.stateFile <;> simp
  split <;> rfl

theorem writeSnapshot_cancel (s : RunState) (force : Bool) (now : ℚ) :
    (s.writeSnapshot force now).cancel_requested = s.cancel_requested := by
  unfold RunState.writeSnapshot
  cases s.stateFile <;> simp
  split <;> rfl

theorem updateLatestBlock_blocks_length (s : RunState)
    (values : List (String × Option ℚ)) (now : ℚ) :
    (s.updateLatestBlock values now).blocks.length = s.blocks.length := by
  unfold RunState.updateLatestBlock
  cases h : s.currentBlock with
  | some b =>
    simp
    split <;> simp [writeSnapshot_blocks]
  | none =>
    simp
    split
    · rfl
    · split <;> simp [writeSnapshot_blocks]

theorem updateLatestBlock_currentBlock_isSome (s : RunState)
    (values : List (String × Option ℚ)) (now : ℚ) :
    (s.updateLatestBlock values now).currentBlock.isSome =
      s.currentBlock.isSome := by
  unfold RunState.updateLatestBlock
  cases h : s.currentBlock with
  | some b =>
    simp [h]
    split <;> simp [writeSnapshot_currentBlock, h]
  | none =>
    simp [h]
    split
    · simp [h]
    · split <;> simp [writeSnapshot_currentBlock, h]

/-! ### Claim C1: the three-line scenario started from IDLE -/

/-- The four lines of the spec scenario: three `MD|` field lines and a
block-end marker, fed from the IDLE state of a fresh `RunState`. -/
def c1Lines : List String :=
  [" MD| Step number  12",
   " MD| Potential energy [hartree]     -10.5  -10.4",
   " MD| Kinetic energy [hartree]       0.02   0.021",
   " MD| *******************************"]

/-- C1 (counterexample): fed from IDLE on a fresh `RunState`, the scenario's
three field lines are dropped (no block is open, `parse_line_for_metrics`
returns before storing anything) and the final marker line merely opens a
block, so no record at all is emitted — not exactly one as claimed. -/
theorem c1_counterexample :
    (feedLines c1Lines initState).blocks.length = 0 ∧
    (feedLines c1Lines initState).currentBlock = some [] := by
  decide

/-- C1 (amended): the same scenario emits exactly one finalized record with
the claimed field values once the block is opened first by a block-start
marker line (` MD| ***`), the state the spec's IDLE wording corresponds to. -/
theorem c1_scenario_with_open_block :
    (feedLines (" MD| ***" :: c1Lines) initState).blocks.length = 1 ∧
    (feedLines (" MD| ***" :: c1Lines) initState).currentBlock = none ∧
    dictGet ((feedLines (" MD| ***" :: c1Lines) initState).blocks.getLastD [])
      "step" = some 12 ∧
    dictGet ((feedLines (" MD| ***" :: c1Lines) initState).blocks.getLastD [])
      "potential_inst" = some (-10.5) ∧
    dictGet ((feedLines (" MD| ***" :: c1Lines) initState).blocks.getLastD [])
      "potential_avg" = some (-10.4) ∧
    dictGet ((feedLines (" MD| ***" :: c1Lines) initState).blocks.getLastD [])
      "kinetic_inst" = some 0.02 ∧
    dictGet ((feedLines (" MD| ***" :: c1Lines) initState).blocks.getLastD [])
      "kinetic_avg" = some 0.021 ∧
    dictGet ((feedLines (" MD| ***" :: c1Lines) initState).blocks.getLastD [])
      "total_energy" = some (-10.48) ∧
    dictGet ((feedLines (" MD| ***" :: c1Lines) initState).blocks.getLastD [])
      "total_energy_avg" = some (-10.379) := by
  refine ⟨?_, ?_, ?_, ?_, ?_, ?_, ?_, ?_, ?_⟩ <;> with_unfolding_all rfl

/-! ### Claim C3: repeated field keys inside one block -/

/-- An open block receiving the same field key twice. -/
def c3Lines : List String :=
  [" MD| ***",
   " MD| Step number  1",
   " MD| Potential energy [hartree] -1.0 -1.5",
   " MD| Potential energy [hartree] -2.0 -2.5"]

/-- C3 (counterexample): field writes are not first-write-wins — feeding a
second `Potential energy` line inside the same block overwrites the stored
`potential_inst` (-1.0 becomes -2.0) before finalization, because
`set_block_values` assigns unconditionally. -/
theorem c3_counterexample :
    dictGet ((feedLines c3Lines initState).currentBlock.getD [])
      "potential_inst" ≠ some (-1) ∧
    dictGet ((feedLines c3Lines initState).currentBlock.getD [])
      "potential_inst" = some (-2) ∧
    dictGet ((feedLines c3Lines initState).currentBlock.getD [])
      "potential_avg" = some (-2.5) := by
  refine ⟨?_, ?_, ?_⟩
  · intro h
    exact absurd (Option.some.inj h) (by with_unfolding_all decide)
  · with_unfolding_all rfl
  · with_unfolding_all rfl

/-- C3 (amended): within a single open block, field writes are
last-write-wins: `set_block_values` unconditionally overwrites the stored
value for the written key and leaves every other key unchanged; in the
concrete two-line repetition the surviving value is the later one. -/
theorem c3_last_write_wins :
    (∀ (s : RunState) (b : Block) (k : String) (v : ℚ),
      s.currentBlock = some b →
      dictGet ((s.setBlockValues [(k, some v)]).currentBlock.getD []) k =
          some v ∧
      ∀ k', k' ≠ k →
        dictGet ((s.setBlockValues [(k, some v)]).currentBlock.getD []) k' =
          dictGet b k') ∧
    dictGet ((feedLines c3Lines initState).currentBlock.getD [])
      "potential_inst" = some (-2) := by
  constructor
  · intro s b k v h
    simp [RunState.setBlockValues, h, assignStep]
    exact ⟨dictGet_insert_self b k v,
      fun k' hk' => dictGet_insert_ne b k k' v hk'⟩
  · with_unfolding_all rfl

/-- C3 witness: the amended overwrite law applied at a concrete input. -/
theorem c3_last_write_wins_witness :
    dictGet (((initState.startBlock).setBlockValues
      [("potential_inst", some 1)]).currentBlock.getD []) "potential_inst" =
      some 1 :=
  (c3_last_write_wins.1 initState.startBlock [] "potential_inst" 1 rfl).1

/-! ### Claim C2: the terminal-scalar (total energy) line -/

/-- A line the extractor recognizes as carrying the iteration's terminal
scalar: non-blank, not an `MD|` line, containing both case-insensitive
markers `energy|` and `total force_eval` (the `elif` arm of
`parse_line_for_metrics`). -/
def isTerminalScalarLine (line : String) : Bool :=
  (!(rstripNl line.toList).all pyIsSpace) &&
  (!startsWithStr " MD|" (rstripNl line.toList)) &&
  containsSub "energy|" (pyLower (rstripNl line.toList)) &&
  containsSub "total force_eval" (pyLower (rstripNl line.toList))

/-- C2 (counterexample): with a block open (step 3 stored), a
`ENERGY| Total FORCE_EVAL` line does not finalize or emit the open record
and does not return the extractor to IDLE — it writes `total_energy` into
the still-open block. -/
theorem c2_counterexample :
    (parseLineForMetrics " ENERGY| Total FORCE_EVAL ( QS ) [a.u.]:   -17.25" 0
      (feedLines [" MD| ***", " MD| Step number  3"] initState)).blocks.length
        = 0 ∧
    (parseLineForMetrics " ENERGY| Total FORCE_EVAL ( QS ) [a.u.]:   -17.25" 0
      (feedLines [" MD| ***", " MD| Step number  3"] initState)).currentBlock
        = some [("step", 3), ("total_energy", -17.25)] := by
  exact ⟨by with_unfolding_all rfl, by with_unfolding_all rfl⟩

/-- C2 (amended): a line recognized as carrying the iteration's terminal
scalar never finalizes or emits a record and never changes whether a record
is open: it writes the line's last numeric token into `total_energy` of the
currently open record in place (when one is open; with no open record it
amends the latest finalized block instead). -/
theorem c2_terminal_scalar_updates_in_place (s : RunState) (line : String)
    (now : ℚ) (hline : isTerminalScalarLine line = true) :
    (parseLineForMetrics line now s).blocks.length = s.blocks.length ∧
    (parseLineForMetrics line now s).currentBlock.isSome =
      s.currentBlock.isSome ∧
    (∀ b v, s.currentBlock = some b →
      (lineNumbers (rstripNl line.toList)).getLast? = some v →
      (parseLineForMetrics line now s).currentBlock =
        some (dictInsert b "total_energy" v)) := by
  simp only [isTerminalScalarLine, Bool.and_eq_true, Bool.not_eq_true'] at hline
  obtain ⟨⟨⟨hblank, hmd⟩, he⟩, ht⟩ := hline
  unfold parseLineForMetrics
  simp only [hblank, hmd, he, ht, Bool.false_eq_true, if_false, and_self,
    if_true]
  cases hnum : (lineNumbers (rstripNl line.toList)).getLast? with
  | none => simp
  | some v =>
    refine ⟨updateLatestBlock_blocks_length s _ now,
      updateLatestBlock_currentBlock_isSome s _ now, ?_⟩
    intro b v' hb hv
    cases hv
    show (s.updateLatestBlock [("total_energy", some v)] now).currentBlock =
      some (dictInsert b "total_energy" v)
    unfold RunState.updateLatestBlock
    rw [hb]
    simp [mergeStep, writeSnapshot_currentBlock]

/-- C2 witness: the amended in-place-update law applied at a concrete
input (open block with step 3; the stated line carries -17.25). -/
theorem c2_terminal_scalar_witness :
    (parseLineForMetrics " ENERGY| Total FORCE_EVAL ( QS ) [a.u.]:   -17.25" 0
      (feedLines [" MD| ***", " MD| Step number  3"] initState)).blocks.length
      = (feedLines [" MD| ***", " MD| Step number  3"] initState).blocks.length :=
  (c2_terminal_scalar_updates_in_place
    (feedLines [" MD| ***", " MD| Step number  3"] initState)
    " ENERGY| Total FORCE_EVAL ( QS ) [a.u.]:   -17.25" 0 (by decide)).1

/-! ### Claim C9: derived totals at finalization -/

theorem getLastD_append_single (l : List Block) (x : Block) (d : Block) :
    (l ++ [x]).getLastD d = x := by
  induction l generalizing d with
  | nil => rfl
  | cons hd tl ih => simp [List.getLastD, ih hd]

theorem deriveTE_get_other (b : Block) (key : String) (h : key ≠ "total_energy") :
    dictGet (deriveTotalEnergy b) key = dictGet b key := by
  unfold deriveTotalEnergy
  split_ifs with hc
  · exact dictGet_insert_ne b "total_energy" key _ h
  · rfl

theorem deriveAvg_get_other (b : Block) (key : String)
    (h : key ≠ "total_energy_avg") :
    dictGet (deriveTotalEnergyAvg b) key = dictGet b key := by
  unfold deriveTotalEnergyAvg
  split_ifs with hc
  · exact dictGet_insert_ne b "total_energy_avg" key _ h
  · rfl

theorem finalizeBlock_blocks_eq (s : RunState) (b : Block) (now : ℚ)
    (hb : s.currentBlock = some b)
    (hstep : (dictGet b "step").isSome = true) :
    (s.finalizeBlock now).blocks =
      s.blocks ++ [deriveTotalEnergyAvg (deriveTotalEnergy b)] := by
  have h1 : b.isEmpty = false := by
    cases b with
    | nil => simp [dictGet] at hstep
    | cons hd tl => rfl
  have h2 : (dictGet b "step").isNone = false := by
    cases hg : dictGet b "step" with
    | none => rw [hg] at hstep; simp at hstep
    | some v => simp
  unfold RunState.finalizeBlock
  rw [hb]
  simp [h1, h2, writeSnapshot_blocks]

/-- C9: at finalization, `total_energy` is derived as
`potential_inst + kinetic_inst` (and `total_energy_avg` as
`potential_avg + kinetic_avg`) exactly when the total is absent and both
operands are present; a total already present in the open record is never
overwritten by the derivation, and with a missing operand no total appears. -/
theorem c9_finalize_derived_totals (s : RunState) (b : Block) (now : ℚ)
    (hb : s.currentBlock = some b)
    (hstep : (dictGet b "step").isSome = true) :
    ((s.finalizeBlock now).blocks.length = s.blocks.length + 1) ∧
    (∀ t, dictGet b "total_energy" = some t →
      dictGet ((s.finalizeBlock now).blocks.getLastD []) "total_energy" =
        some t) ∧
    (∀ p k, dictGet b "total_energy" = none →
      dictGet b "potential_inst" = some p →
      dictGet b "kinetic_inst" = some k →
      dictGet ((s.finalizeBlock now).blocks.getLastD []) "total_energy" =
        some (p + k)) ∧
    (dictGet b "total_energy" = none →
      ((dictGet b "potential_inst").isNone = true ∨
        (dictGet b "kinetic_inst").isNone = true) →
      dictGet ((s.finalizeBlock now).blocks.getLastD []) "total_energy" =
        none) ∧
    (∀ t, dictGet b "total_energy_avg" = some t →
      dictGet ((s.finalizeBlock now).blocks.getLastD []) "total_energy_avg" =
        some t) ∧
    (∀ p k, dictGet b "total_energy_avg" = none →
      dictGet b "potential_avg" = some p →
      dictGet b "kinetic_avg" = some k →
      dictGet ((s.finalizeBlock now).blocks.getLastD []) "total_energy_avg" =
        some (p + k)) ∧
    (dictGet b "total_energy_avg" = none →
      ((dictGet b "potential_avg").isNone = true ∨
        (dictGet b "kinetic_avg").isNone = true) →
      dictGet ((s.finalizeBlock now).blocks.getLastD []) "total_energy_avg" =
        none) := by
  have hblocks := finalizeBlock_blocks_eq s b now hb hstep
  have hlast : (s.finalizeBlock now).blocks.getLastD [] =
      deriveTotalEnergyAvg (deriveTotalEnergy b) := by
    rw [hblocks]; exact getLastD_append_single _ _ _
  have havg1 : dictGet (deriveTotalEnergy b) "total_energy_avg" =
      dictGet b "total_energy_avg" := deriveTE_get_other b _ (by decide)
  have havg2 : dictGet (deriveTotalEnergy b) "potential_avg" =
      dictGet b "potential_avg" := deriveTE_get_other b _ (by decide)
  have havg3 : dictGet (deriveTotalEnergy b) "kinetic_avg" =
      dictGet b "kinetic_avg" := deriveTE_get_other b _ (by decide)
  refine ⟨by rw [hblocks]; simp, ?_, ?_, ?_, ?_, ?_, ?_⟩
  · intro t hTE
    rw [hlast, deriveAvg_get_other _ _ (by decide)]
    unfold deriveTotalEnergy
    simp [hTE]
  · intro p k hTE hp hk
    rw [hlast, deriveAvg_get_other _ _ (by decide)]
    unfold deriveTotalEnergy
    simp [hTE, hp, hk, dictGet_insert_self]
  · intro hTE hmiss
    rw [hlast, deriveAvg_get_other _ _ (by decide)]
    unfold deriveTotalEnergy
    rcases hmiss with hm | hm <;> simp [hTE, Option.isNone_iff_eq_none.mp hm]
  · intro t hTA
    rw [hlast]
    unfold deriveTotalEnergyAvg
    simp [havg1, hTA]
  · intro p k hTA hp hk
    rw [hlast]
    unfold deriveTotalEnergyAvg
    simp [havg1, havg2, havg3, hTA, hp, hk, dictGet_insert_self]
  · intro hTA hmiss
    rw [hlast]
    unfold deriveTotalEnergyAvg
    rcases hmiss with hm | hm <;>
      simp [havg1, havg2, havg3, hTA, Option.isNone_iff_eq_none.mp hm]

/-- C9 witness: the finalize-derivation law applied at a concrete state
(an open block holding only a step index). -/
theorem c9_finalize_derived_totals_witness :
    ((initState.setBlockValues [("step", some 1)]).finalizeBlock 0).blocks.length
      = (initState.setBlockValues [("step", some 1)]).blocks.length + 1 :=
  (c9_finalize_derived_totals (initState.setBlockValues [("step", some 1)])
    [("step", 1)] 0 rfl rfl).1

/-! ### Claim C8: amending the latest record -/

theorem foldl_mergeStep_fst (values : List (String × Option ℚ)) (b : Block)
    (fl : Bool) :
    (values.foldl mergeStep (b, fl)).1 = values.foldl assignStep b := by
  induction values generalizing b fl with
  | nil => rfl
  | cons kv rest ih =>
    cases h : kv.2 with
    | none => simp [List.foldl_cons, mergeStep, assignStep, h, ih]
    | some v => simp [List.foldl_cons, mergeStep, assignStep, h, ih]

theorem foldl_updStep_fst (values : List (String × Option ℚ)) (idx : ℕ)
    (b : Block) (m : MetricSeries) (fl : Bool) :
    (values.foldl (updStep idx) (b, m, fl)).1 = values.foldl assignStep b := by
  induction values generalizing b m fl with
  | nil => rfl
  | cons kv rest ih =>
    cases h : kv.2 with
    | none => simp [List.foldl_cons, updStep, assignStep, h, ih]
    | some v => simp [List.foldl_cons, updStep, assignStep, h, ih]

theorem foldl_assignStep_not_named (values : List (String × Option ℚ))
    (b : Block) (key : String)
    (h : values.all (fun kv => !(kv.1 == key) || kv.2.isNone) = true) :
    dictGet (values.foldl assignStep b) key = dictGet b key := by
  induction values generalizing b with
  | nil => rfl
  | cons kv rest ih =>
    rw [List.all_cons, Bool.and_eq_true] at h
    obtain ⟨hkv, hrest⟩ := h
    cases hv : kv.2 with
    | none =>
      simp only [List.foldl_cons, assignStep, hv]
      exact ih b hrest
    | some v =>
      rw [hv] at hkv
      simp only [Option.isNone_some, Bool.or_false, Bool.not_eq_true',
        beq_eq_false_iff_ne] at hkv
      simp only [List.foldl_cons, assignStep, hv]
      rw [ih (dictInsert b kv.1 v) hrest]
      exact dictGet_insert_ne b kv.1 key v (Ne.symm hkv)

theorem foldl_assignStep_isSome (values : List (String × Option ℚ))
    (b : Block) (key : String)
    (h : (dictGet b key).isSome = true) :
    (dictGet (values.foldl assignStep b) key).isSome = true := by
  induction values generalizing b with
  | nil => exact h
  | cons kv rest ih =>
    cases hv : kv.2 with
    | none =>
      simp only [List.foldl_cons, assignStep, hv]
      exact ih b h
    | some v =>
      simp only [List.foldl_cons, assignStep, hv]
      exact ih _ (dictGet_insert_isSome b kv.1 key v h)

theorem set_last_eq_dropLast_append (hd : Block) (tl : List Block) (x : Block) :
    (hd :: tl).set ((hd :: tl).length - 1) x = (hd :: tl).dropLast ++ [x] := by
  induction tl generalizing hd with
  | nil => rfl
  | cons a as ih =>
    show (hd :: a :: as).set (as.length + 1) x = (hd :: a :: as).dropLast ++ [x]
    rw [List.set]
    have h2 := ih a
    simp only [List.length_cons, Nat.add_sub_cancel] at h2
    rw [h2]
    rfl

theorem getLastD_set_last (l : List Block) (x d : Block) (h : l ≠ []) :
    (l.set (l.length - 1) x).getLastD d = x := by
  cases l with
  | nil => exact absurd rfl h
  | cons hd tl =>
    rw [set_last_eq_dropLast_append]
    exact getLastD_append_single _ _ _

theorem updateLatestBlock_none_nil (s : RunState)
    (values : List (String × Option ℚ)) (now : ℚ)
    (h1 : s.currentBlock = none) (h2 : s.blocks = []) :
    s.updateLatestBlock values now = s := by
  unfold RunState.updateLatestBlock
  rw [h1]
  simp [h2]

theorem updateLatestBlock_open_block (s : RunState)
    (values : List (String × Option ℚ)) (now : ℚ) (b : Block)
    (hb : s.currentBlock = some b) :
    (s.updateLatestBlock values now).currentBlock =
      some (values.foldl assignStep b) := by
  unfold RunState.updateLatestBlock
  rw [hb]
  simp only []
  split <;> simp [writeSnapshot_currentBlock, foldl_mergeStep_fst]

theorem updateLatestBlock_amend_last (s : RunState)
    (values : List (String × Option ℚ)) (now : ℚ)
    (h1 : s.currentBlock = none) (h2 : s.blocks ≠ []) :
    (s.updateLatestBlock values now).blocks.getLastD [] =
      values.foldl assignStep (s.blocks.getLastD []) := by
  have hne : s.blocks.isEmpty = false := by
    cases hbl : s.blocks with
    | nil => exact absurd hbl h2
    | cons hd tl => rfl
  unfold RunState.updateLatestBlock
  rw [h1]
  simp only [hne, Bool.false_eq_true, if_false]
  split
  · rw [writeSnapshot_blocks]
    show (s.blocks.set (s.blocks.length - 1) _).getLastD [] = _
    rw [getLastD_set_last _ _ _ h2, foldl_updStep_fst]
  · show (s.blocks.set (s.blocks.length - 1) _).getLastD [] = _
    rw [getLastD_set_last _ _ _ h2, foldl_updStep_fst]

/-- C8: `update_latest_block` merges by field and never removes data — a
field not named in the amendment (or named only with a null value) keeps its
previous value, both in the open record and in the amend-the-latest-finalized
case; present fields never become absent; and with no open block and no
finalized record at all the operation leaves the state unchanged. -/
theorem c8_amend_merges_never_removes (s : RunState)
    (values : List (String × Option ℚ)) (now : ℚ) :
    (s.currentBlock = none → s.blocks = [] →
      s.updateLatestBlock values now = s) ∧
    (∀ b, s.currentBlock = some b →
      ∀ key, values.all (fun kv => !(kv.1 == key) || kv.2.isNone) = true →
        dictGet ((s.updateLatestBlock values now).currentBlock.getD []) key =
          dictGet b key) ∧
    (s.currentBlock = none → s.blocks ≠ [] →
      ∀ key, values.all (fun kv => !(kv.1 == key) || kv.2.isNone) = true →
        dictGet ((s.updateLatestBlock values now).blocks.getLastD []) key =
          dictGet (s.blocks.getLastD []) key) ∧
    (∀ b, s.currentBlock = some b → ∀ key,
      (dictGet b key).isSome = true →
      (dictGet ((s.updateLatestBlock values now).currentBlock.getD [])
        key).isSome = true) ∧
    (s.currentBlock = none → s.blocks ≠ [] → ∀ key,
      (dictGet (s.blocks.getLastD []) key).isSome = true →
      (dictGet ((s.updateLatestBlock values now).blocks.getLastD [])
        key).isSome = true) := by
  refine ⟨updateLatestBlock_none_nil s values now, ?_, ?_, ?_, ?_⟩
  · intro b hb key hkey
    rw [updateLatestBlock_open_block s values now b hb]
    exact foldl_assignStep_not_named values b key hkey
  · intro h1 h2 key hkey
    rw [updateLatestBlock_amend_last s values now h1 h2]
    exact foldl_assignStep_not_named values _ key hkey
  · intro b hb key hkey
    rw [updateLatestBlock_open_block s values now b hb]
    exact foldl_assignStep_isSome values b key hkey
  · intro h1 h2 key hkey
    rw [updateLatestBlock_amend_last s values now h1 h2]
    exact foldl_assignStep_isSome values _ key hkey

/-- C8 witness: the merge-by-field law applied at a concrete input — an open
block holding `potential_inst` amended with only `total_energy` keeps
`potential_inst`. -/
theorem c8_amend_merges_never_removes_witness :
    dictGet (((initState.setBlockValues
        [("potential_inst", some 5)]).updateLatestBlock
        [("total_energy", some 7)] 0).currentBlock.getD [])
      "potential_inst" = dictGet [("potential_inst", 5)] "potential_inst" :=
  ((c8_amend_merges_never_removes
    (initState.setBlockValues [("potential_inst", some 5)])
    [("total_energy", some 7)] 0).2.1 [("potential_inst", 5)] rfl
    "potential_inst" rfl)

/-! ### Claim C10: blocks/series parallelism invariant -/

/-- The store operations of `RunState` named by the claim: the three
block-building operations, the amend operation and the lifecycle
operations.  Clock reads are explicit arguments. -/
inductive StoreOp
  | opStartBlock
  | opSetBlockValues (values : List (String × Option ℚ))
  | opFinalizeBlock (now : ℚ)
  | opUpdateLatestBlock (values : List (String × Option ℚ)) (now : ℚ)
  | opAppendTail (line : String) (now : ℚ)
  | opSetPid (p : ℤ)
  | opMarkStatus (st : String)
  | opFinalizeRun (code : ℤ) (now : ℚ)
  | opRequestCancel
  | opSetStateFile (f : Option String)
  | opWriteSnapshot (force : Bool) (now : ℚ)

/-- Dispatch a store operation to the corresponding `RunState` method. -/
def applyOp (s : RunState) : StoreOp → RunState
  | .opStartBlock => s.startBlock
  | .opSetBlockValues values => s.setBlockValues values
  | .opFinalizeBlock now => s.finalizeBlock now
  | .opUpdateLatestBlock values now => s.updateLatestBlock values now
  | .opAppendTail line now => s.appendTail line now
  | .opSetPid p => s.setPid p
  | .opMarkStatus st => s.markStatus st
  | .opFinalizeRun code now => s.finalizeRun code now
  | .opRequestCancel => s.requestCancel
  | .opSetStateFile f => s.setStateFile f
  | .opWriteSnapshot force now => s.writeSnapshot force now

/-- A whole operation sequence. -/
def applyOps (s : RunState) (ops : List StoreOp) : RunState :=
  ops.foldl applyOp s

/-- Is the operation the finalize-block operation? -/
def StoreOp.isFinalizeBlockOp : StoreOp → Bool
  | .opFinalizeBlock _ => true
  | _ => false

/-- The lengths of all fifteen metric series. -/
def seriesLengths (m : MetricSeries) : List ℕ :=
  [m.steps.length, m.time_fs.length, m.conserved_energy.length,
   m.cpu_time_per_step.length, m.cpu_time_per_step_avg.length,
   m.energy_drift_inst.length, m.energy_drift_avg.length,
   m.potential_inst.length, m.potential_avg.length,
   m.kinetic_inst.length, m.kinetic_avg.length,
   m.temperature_inst.length, m.temperature_avg.length,
   m.total_energy.length, m.total_energy_avg.length]

/-- The blocks/series parallelism invariant: the step series is as long as
the block list, and for each of the fourteen non-step field keys the whole
series equals the per-block lookups of that key (hence equal lengths and
index-wise agreement, including after amendments). -/
def StoreInv (s : RunState) : Prop :=
  s.metrics.steps.length = s.blocks.length ∧
  ∀ key ∈ metricKeys14,
    s.metrics.seriesGet key = s.blocks.map (fun b => dictGet b key)

theorem seriesGet_addBlock (m : MetricSeries) (b : Block) (key : String)
    (h : key ∈ metricKeys14) :
    (m.addBlock b).seriesGet key = m.seriesGet key ++ [dictGet b key] := by
  simp only [metricKeys14, List.mem_cons, List.not_mem_nil, or_false] at h
  rcases h with rfl|rfl|rfl|rfl|rfl|rfl|rfl|rfl|rfl|rfl|rfl|rfl|rfl|rfl <;> rfl

theorem seriesGet_setValue_self (m : MetricSeries) (key : String) (idx : ℕ)
    (v : ℚ) (h : key ∈ metricKeys14) :
    (m.setValue key idx v).seriesGet key = (m.seriesGet key).set idx (some v) := by
  simp only [metricKeys14, List.mem_cons, List.not_mem_nil, or_false] at h
  rcases h with rfl|rfl|rfl|rfl|rfl|rfl|rfl|rfl|rfl|rfl|rfl|rfl|rfl|rfl <;> rfl

theorem setValue_unmapped (m : MetricSeries) (k : String) (idx : ℕ) (v : ℚ)
    (h : k ∉ metricKeys14) :
    m.setValue k idx v = m := by
  simp only [metricKeys14, List.mem_cons, List.not_mem_nil, or_false,
    not_or] at h
  obtain ⟨h1, h2, h3, h4, h5, h6, h7, h8, h9, h10, h11, h12, h13, h14⟩ := h
  unfold MetricSeries.setValue
  rw [if_neg h1, if_neg h2, if_neg h3, if_neg h4, if_neg h5, if_neg h6,
    if_neg h7, if_neg h8, if_neg h9, if_neg h10, if_neg h11, if_neg h12,
    if_neg h13, if_neg h14]

set_option maxHeartbeats 2000000 in
theorem seriesGet_setValue_ne (m : MetricSeries) (k key : String) (idx : ℕ)
    (v : ℚ) (h : key ∈ metricKeys14) (hne : key ≠ k) :
    (m.setValue k idx v).seriesGet key = m.seriesGet key := by
  by_cases hk : k ∈ metricKeys14
  · simp only [metricKeys14, List.mem_cons, List.not_mem_nil, or_false] at h hk
    rcases hk with rfl|rfl|rfl|rfl|rfl|rfl|rfl|rfl|rfl|rfl|rfl|rfl|rfl|rfl <;>
      rcases h with rfl|rfl|rfl|rfl|rfl|rfl|rfl|rfl|rfl|rfl|rfl|rfl|rfl|rfl <;>
        first
          | exact absurd rfl hne
          | rfl
  · rw [setValue_unmapped m k idx v hk]

theorem setValue_steps (m : MetricSeries) (k : String) (idx : ℕ) (v : ℚ) :
    (m.setValue k idx v).steps = m.steps := by
  by_cases hk : k ∈ metricKeys14
  · simp only [metricKeys14, List.mem_cons, List.not_mem_nil, or_false] at hk
    rcases hk with rfl|rfl|rfl|rfl|rfl|rfl|rfl|rfl|rfl|rfl|rfl|rfl|rfl|rfl <;> rfl
  · rw [setValue_unmapped m k idx v hk]

theorem steps_addBlock (m : MetricSeries) (b : Block) :
    (m.addBlock b).steps = m.steps ++ [dictGet b "step"] := rfl

theorem map_set_comm {α β : Type} (l : List α) (i : ℕ) (a : α) (f : α → β) :
    (l.set i a).map f = (l.map f).set i (f a) := by
  induction l generalizing i with
  | nil => simp
  | cons hd tl ih =>
    cases i with
    | zero => simp [List.set]
    | succ n => simp [List.set, ih]

theorem set_set_eq {α : Type} (l : List α) (i : ℕ) (a b : α) :
    (l.set i a).set i b = l.set i b := by
  induction l generalizing i with
  | nil => rfl
  | cons hd tl ih =>
    cases i with
    | zero => rfl
    | succ n => simp [List.set, ih]

theorem getLastD_cons_cons (x y : Block) (l : List Block) (d : Block) :
    (x :: y :: l).getLastD d = (y :: l).getLastD x := rfl

theorem set_last_getLastD_cons (hd : Block) (tl : List Block) (d : Block) :
    (hd :: tl).set ((hd :: tl).length - 1) ((hd :: tl).getLastD d) =
      hd :: tl := by
  induction tl generalizing hd d with
  | nil => rfl
  | cons a as ih =>
    show (hd :: a :: as).set (as.length + 1) ((hd :: a :: as).getLastD d) =
      hd :: a :: as
    rw [List.set, getLastD_cons_cons]
    have h2 := ih a hd
    simp only [List.length_cons, Nat.add_sub_cancel] at h2
    rw [h2]

theorem set_last_getLastD (l : List Block) (d : Block) (h : l ≠ []) :
    l.set (l.length - 1) (l.getLastD d) = l := by
  cases l with
  | nil => exact absurd rfl h
  | cons hd tl => exact set_last_getLastD_cons hd tl d

theorem updFold_steps (values : List (String × Option ℚ)) (idx : ℕ)
    (b : Block) (m : MetricSeries) (fl : Bool) :
    ((values.foldl (updStep idx) (b, m, fl)).2.1).steps = m.steps := by
  induction values generalizing b m fl with
  | nil => rfl
  | cons kv rest ih =>
    cases hv : kv.2 with
    | none =>
      simp only [List.foldl_cons, updStep, hv]
      exact ih _ _ _
    | some v =>
      simp only [List.foldl_cons, updStep, hv]
      rw [ih _ _ _, setValue_steps]

theorem updFold_agree (values : List (String × Option ℚ)) (blocks : List Block)
    (idx : ℕ) (b : Block) (m : MetricSeries) (fl : Bool)
    (hagree : ∀ key ∈ metricKeys14,
      m.seriesGet key = (blocks.set idx b).map (fun blk => dictGet blk key)) :
    ∀ key ∈ metricKeys14,
      ((values.foldl (updStep idx) (b, m, fl)).2.1).seriesGet key =
        (blocks.set idx ((values.foldl (updStep idx) (b, m, fl)).1)).map
          (fun blk => dictGet blk key) := by
  induction values generalizing b m fl hagree with
  | nil => exact hagree
  | cons kv rest ih =>
    cases hv : kv.2 with
    | none =>
      simp only [List.foldl_cons, updStep, hv]
      exact ih _ _ _ hagree
    | some v =>
      simp only [List.foldl_cons, updStep, hv]
      apply ih
      intro key hkey
      by_cases hkk : key = kv.1
      · subst hkk
        rw [seriesGet_setValue_self m kv.1 idx v hkey, hagree kv.1 hkey,
          map_set_comm, set_set_eq, map_set_comm]
        simp [dictGet_insert_self]
      · rw [seriesGet_setValue_ne m kv.1 key idx v hkey hkk, hagree key hkey,
          map_set_comm, map_set_comm]
        simp [dictGet_insert_ne b kv.1 key v hkk]

theorem storeInv_writeSnapshot (s : RunState) (force : Bool) (now : ℚ)
    (h : StoreInv s) : StoreInv (s.writeSnapshot force now) := by
  unfold StoreInv at h ⊢
  rw [writeSnapshot_metrics, writeSnapshot_blocks]
  exact h

theorem storeInv_finalizeBlock (s : RunState) (now : ℚ) (h : StoreInv s) :
    StoreInv (s.finalizeBlock now) := by
  unfold RunState.finalizeBlock
  cases hb : s.currentBlock with
  | none => exact h
  | some b =>
    dsimp only
    split
    · exact h
    · apply storeInv_writeSnapshot
      constructor
      · show (s.metrics.addBlock _).steps.length = (s.blocks ++ [_]).length
        rw [steps_addBlock]
        simp [h.1]
      · intro key hkey
        show (s.metrics.addBlock _).seriesGet key = (s.blocks ++ [_]).map _
        rw [seriesGet_addBlock _ _ _ hkey, h.2 key hkey, List.map_append]
        rfl

theorem storeInv_updateLatestBlock (s : RunState)
    (values : List (String × Option ℚ)) (now : ℚ) (h : StoreInv s) :
    StoreInv (s.updateLatestBlock values now) := by
  unfold RunState.updateLatestBlock
  cases hb : s.currentBlock with
  | some b =>
    dsimp only
    split
    · exact storeInv_writeSnapshot _ _ _ h
    · exact h
  | none =>
    dsimp only
    split
    · exact h
    · rename_i hne
      have hbl : s.blocks ≠ [] := by
        intro h0
        exact hne (by rw [h0]; rfl)
      have hinit : ∀ key ∈ metricKeys14,
          s.metrics.seriesGet key =
            (s.blocks.set (s.blocks.length - 1)
              (s.blocks.getLastD [])).map (fun blk => dictGet blk key) := by
        intro key hkey
        rw [set_last_getLastD s.blocks [] hbl]
        exact h.2 key hkey
      have hinv : StoreInv { s with
          blocks := s.blocks.set (s.blocks.length - 1)
            ((values.foldl (updStep (s.blocks.length - 1))
              (s.blocks.getLastD [], s.metrics, false)).1)
          metrics := (values.foldl (updStep (s.blocks.length - 1))
            (s.blocks.getLastD [], s.metrics, false)).2.1 } := by
        constructor
        · show ((values.foldl (updStep (s.blocks.length - 1))
              (s.blocks.getLastD [], s.metrics, false)).2.1).steps.length = _
          rw [updFold_steps, List.length_set]
          exact h.1
        · intro key hkey
          exact updFold_agree values s.blocks (s.blocks.length - 1) _ _ false
            hinit key hkey
      split
      · exact storeInv_writeSnapshot _ _ _ hinv
      · exact hinv

theorem storeInv_applyOp (s : RunState) (op : StoreOp) (h : StoreInv s) :
    StoreInv (applyOp s op) := by
  cases op with
  | opStartBlock => exact h
  | opSetBlockValues values => exact h
  | opFinalizeBlock now => exact storeInv_finalizeBlock s now h
  | opUpdateLatestBlock values now =>
    exact storeInv_updateLatestBlock s values now h
  | opAppendTail line now => exact storeInv_writeSnapshot _ false now h
  | opSetPid p => exact h
  | opMarkStatus st => exact h
  | opFinalizeRun code now => exact storeInv_writeSnapshot _ true now h
  | opRequestCancel => exact h
  | opSetStateFile f => exact h
  | opWriteSnapshot force now => exact storeInv_writeSnapshot s force now h

theorem storeInv_init : StoreInv initState := by
  constructor
  · rfl
  · intro key hkey
    simp only [metricKeys14, List.mem_cons, List.not_mem_nil, or_false] at hkey
    rcases hkey with rfl|rfl|rfl|rfl|rfl|rfl|rfl|rfl|rfl|rfl|rfl|rfl|rfl|rfl <;>
      rfl

theorem storeInv_applyOps (ops : List StoreOp) (s : RunState)
    (h : StoreInv s) : StoreInv (applyOps s ops) := by
  induction ops generalizing s with
  | nil => exact h
  | cons op rest ih => exact ih (applyOp s op) (storeInv_applyOp s op h)

theorem setValue_seriesLengths (m : MetricSeries) (k : String) (idx : ℕ)
    (v : ℚ) :
    seriesLengths (m.setValue k idx v) = seriesLengths m := by
  by_cases hk : k ∈ metricKeys14
  · simp only [metricKeys14, List.mem_cons, List.not_mem_nil, or_false] at hk
    rcases hk with rfl|rfl|rfl|rfl|rfl|rfl|rfl|rfl|rfl|rfl|rfl|rfl|rfl|rfl <;>
      simp [MetricSeries.setValue, seriesLengths, List.length_set]
  · rw [setValue_unmapped m k idx v hk]

theorem updFold_seriesLengths (values : List (String × Option ℚ)) (idx : ℕ)
    (b : Block) (m : MetricSeries) (fl : Bool) :
    seriesLengths ((values.foldl (updStep idx) (b, m, fl)).2.1) =
      seriesLengths m := by
  induction values generalizing b m fl with
  | nil => rfl
  | cons kv rest ih =>
    cases hv : kv.2 with
    | none =>
      simp only [List.foldl_cons, updStep, hv]
      exact ih _ _ _
    | some v =>
      simp only [List.foldl_cons, updStep, hv]
      rw [ih _ _ _, setValue_seriesLengths]

theorem updateLatestBlock_seriesLengths (s : RunState)
    (values : List (String × Option ℚ)) (now : ℚ) :
    seriesLengths (s.updateLatestBlock values now).metrics =
      seriesLengths s.metrics := by
  unfold RunState.updateLatestBlock
  cases hb : s.currentBlock with
  | some b =>
    dsimp only
    split <;> simp [writeSnapshot_metrics]
  | none =>
    dsimp only
    split
    · rfl
    · split <;> simp [writeSnapshot_metrics, updFold_seriesLengths]

theorem finalizeBlock_length_cases (s : RunState) (now : ℚ) :
    ((s.finalizeBlock now).blocks.length = s.blocks.length ∧
      seriesLengths (s.finalizeBlock now).metrics = seriesLengths s.metrics) ∨
    ((s.finalizeBlock now).blocks.length = s.blocks.length + 1 ∧
      seriesLengths (s.finalizeBlock now).metrics =
        (seriesLengths s.metrics).map (fun n => n + 1)) := by
  unfold RunState.finalizeBlock
  cases hb : s.currentBlock with
  | none => exact Or.inl ⟨rfl, rfl⟩
  | some b =>
    dsimp only
    split
    · exact Or.inl ⟨rfl, rfl⟩
    · right
      constructor
      · rw [writeSnapshot_blocks]
        simp
      · rw [writeSnapshot_metrics]
        show seriesLengths (s.metrics.addBlock _) = _
        simp [seriesLengths, MetricSeries.addBlock]

/-- C10: for every `RunState` reachable from a fresh store by any sequence
of store operations, the step series is as long as the block list and each
of the fourteen non-step metric series equals the per-block lookups of its
key (equal lengths and index-wise agreement, including after an amendment
of an already finalized record, which writes through to the series); every
operation other than `finalize_block` leaves the block-list length and all
fifteen series lengths unchanged, and `finalize_block` either changes
nothing or appends exactly one entry to the block list and to every series
simultaneously. -/
theorem c10_parallel_series_invariant :
    (∀ ops : List StoreOp, StoreInv (applyOps initState ops)) ∧
    (∀ (s : RunState) (op : StoreOp), op.isFinalizeBlockOp = false →
      (applyOp s op).blocks.length = s.blocks.length ∧
      seriesLengths (applyOp s op).metrics = seriesLengths s.metrics) ∧
    (∀ (s : RunState) (now : ℚ),
      ((s.finalizeBlock now).blocks.length = s.blocks.length ∧
        seriesLengths (s.finalizeBlock now).metrics =
          seriesLengths s.metrics) ∨
      ((s.finalizeBlock now).blocks.length = s.blocks.length + 1 ∧
        seriesLengths (s.finalizeBlock now).metrics =
          (seriesLengths s.metrics).map (fun n => n + 1))) := by
  refine ⟨fun ops => storeInv_applyOps ops initState storeInv_init, ?_,
    finalizeBlock_length_cases⟩
  intro s op hop
  cases op with
  | opStartBlock => exact ⟨rfl, rfl⟩
  | opSetBlockValues values => exact ⟨rfl, rfl⟩
  | opFinalizeBlock now => simp [StoreOp.isFinalizeBlockOp] at hop
  | opUpdateLatestBlock values now =>
    exact ⟨updateLatestBlock_blocks_length s values now,
      updateLatestBlock_seriesLengths s values now⟩
  | opAppendTail line now =>
    constructor
    · show ((_ : RunState).writeSnapshot false now).blocks.length = _
      rw [writeSnapshot_blocks]
    · show seriesLengths ((_ : RunState).writeSnapshot false now).metrics = _
      rw [writeSnapshot_metrics]
  | opSetPid p => exact ⟨rfl, rfl⟩
  | opMarkStatus st => exact ⟨rfl, rfl⟩
  | opFinalizeRun code now =>
    constructor
    · show ((_ : RunState).writeSnapshot true now).blocks.length = _
      rw [writeSnapshot_blocks]
    · show seriesLengths ((_ : RunState).writeSnapshot true now).metrics = _
      rw [writeSnapshot_metrics]
  | opRequestCancel => exact ⟨rfl, rfl⟩
  | opSetStateFile f => exact ⟨rfl, rfl⟩
  | opWriteSnapshot force now =>
    exact ⟨by show (s.writeSnapshot force now).blocks.length = _
              rw [writeSnapshot_blocks],
           by show seriesLengths (s.writeSnapshot force now).metrics = _
              rw [writeSnapshot_metrics]⟩

/-- C10 witness: the only-finalize-extends part applied at a concrete
non-finalize operation. -/
theorem c10_parallel_series_invariant_witness :
    (applyOp initState StoreOp.opStartBlock).blocks.length =
      initState.blocks.length :=
  (c10_parallel_series_invariant.2.1 initState StoreOp.opStartBlock rfl).1

/-! ### Claim C4: snapshot persistence protocol -/

/-- Does `p` end in the given suffix? -/
def strEndsWith (suffix p : String) : Bool :=
  chPre suffix.toList.reverse p.toList.reverse

/-- The well-formedness of one filesystem event of the snapshot writer:
full-content writes go only to `.tmp` paths, and every replace installs a
target's own temp file over it (`os.replace(temp_path, path)`).  In
particular no event ever writes a non-temp path directly. -/
def FsEv.wellFormed : FsEv → Bool
  | .writeTempFile p _ => strEndsWith ".tmp" p
  | .replaceFile src dst => src == dst ++ ".tmp"

theorem chPre_append_self (n rest : List Char) : chPre n (n ++ rest) = true := by
  induction n with
  | nil => rfl
  | cons a as ih => simp [chPre, ih]

theorem strEndsWith_tmp (p : String) :
    strEndsWith ".tmp" (p ++ ".tmp") = true := by
  unfold strEndsWith
  have h : (p ++ ".tmp").toList = p.toList ++ ".tmp".toList :=
    String.data_append p ".tmp"
  rw [h, List.reverse_append]
  exact chPre_append_self _ _

theorem tmpPathOf_ne (path : String) : tmpPathOf path ≠ path := by
  intro h
  have hl := congrArg String.length h
  rw [tmpPathOf, String.length_append] at hl
  simp at hl
  exact absurd hl (by decide)

theorem evInv_writeSnapshot (s : RunState) (force : Bool) (now : ℚ)
    (h : s.fsEvents.all FsEv.wellFormed = true) :
    (s.writeSnapshot force now).fsEvents.all FsEv.wellFormed = true := by
  unfold RunState.writeSnapshot
  cases hsf : s.stateFile with
  | none => exact h
  | some path =>
    dsimp only
    split
    · exact h
    · simp [List.all_append, h, FsEv.wellFormed, strEndsWith_tmp, tmpPathOf]

theorem evInv_finalizeBlock (s : RunState) (now : ℚ)
    (h : s.fsEvents.all FsEv.wellFormed = true) :
    (s.finalizeBlock now).fsEvents.all FsEv.wellFormed = true := by
  unfold RunState.finalizeBlock
  cases hb : s.currentBlock with
  | none => exact h
  | some b =>
    dsimp only
    split
    · exact h
    · exact evInv_writeSnapshot _ false now h

theorem evInv_updateLatestBlock (s : RunState)
    (values : List (String × Option ℚ)) (now : ℚ)
    (h : s.fsEvents.all FsEv.wellFormed = true) :
    (s.updateLatestBlock values now).fsEvents.all FsEv.wellFormed = true := by
  unfold RunState.updateLatestBlock
  cases hb : s.currentBlock with
  | some b =>
    dsimp only
    split
    · exact evInv_writeSnapshot _ false now h
    · exact h
  | none =>
    dsimp only
    split
    · exact h
    · split
      · exact evInv_writeSnapshot _ false now h
      · exact h

theorem evInv_applyOp (s : RunState) (op : StoreOp)
    (h : s.fsEvents.all FsEv.wellFormed = true) :
    (applyOp s op).fsEvents.all FsEv.wellFormed = true := by
  cases op with
  | opStartBlock => exact h
  | opSetBlockValues values => exact h
  | opFinalizeBlock now => exact evInv_finalizeBlock s now h
  | opUpdateLatestBlock values now =>
    exact evInv_updateLatestBlock s values now h
  | opAppendTail line now => exact evInv_writeSnapshot _ false now h
  | opSetPid p => exact h
  | opMarkStatus st => exact h
  | opFinalizeRun code now => exact evInv_writeSnapshot _ true now h
  | opRequestCancel => exact h
  | opSetStateFile f => exact h
  | opWriteSnapshot force now => exact evInv_writeSnapshot s force now h

/-- C4 (counterexample): a status change via `mark_status` emits no
snapshot write at all, even with a state file registered (`mark_status`
only assigns the status field), contradicting the claimed forced write on
every status change. -/
theorem c4_counterexample :
    (({ stateFile := some "state.json" } : RunState).markStatus
        "running").fsEvents =
      ({ stateFile := some "state.json" } : RunState).fsEvents ∧
    (({ stateFile := some "state.json" } : RunState).markStatus
        "running").status ≠
      ({ stateFile := some "state.json" } : RunState).status := by
  exact ⟨rfl, by decide⟩

/-- C4 (amended): every snapshot persistence call that actually writes
serializes the current snapshot to the `.tmp` sibling of the target and
atomically replaces the target with it — over every reachable state, the
event trace only ever contains temp-file writes and temp-over-target
replaces, never a direct write of the target; a non-forced write is dropped
(state unchanged) while less than 500 ms has passed since the last write;
`finalize` always forces a write; but `mark_status` does not write — status
changes alone trigger no snapshot write. -/
theorem c4_snapshot_persistence :
    (∀ (s : RunState) (path : String) (force : Bool) (now : ℚ),
      s.stateFile = some path →
      ((¬force = true) ∧ now - s.lastSnapshotWrite < 1 / 2 →
        s.writeSnapshot force now = s) ∧
      (force = true ∨ ¬ now - s.lastSnapshotWrite < 1 / 2 →
        (s.writeSnapshot force now).fsEvents =
          s.fsEvents ++
            [FsEv.writeTempFile (tmpPathOf path) (s.snapshotLocked now),
             FsEv.replaceFile (tmpPathOf path) path] ∧
        tmpPathOf path ≠ path)) ∧
    (∀ (s : RunState) (force : Bool) (now : ℚ),
      s.stateFile = none → s.writeSnapshot force now = s) ∧
    (∀ ops : List StoreOp,
      (applyOps initState ops).fsEvents.all FsEv.wellFormed = true) ∧
    (∀ (s : RunState) (path : String) (code : ℤ) (now : ℚ),
      s.stateFile = some path →
      ∃ snap, (s.finalizeRun code now).fsEvents =
        s.fsEvents ++
          [FsEv.writeTempFile (tmpPathOf path) snap,
           FsEv.replaceFile (tmpPathOf path) path]) ∧
    (∀ (s : RunState) (st : String),
      (s.markStatus st).fsEvents = s.fsEvents) := by
  refine ⟨?_, ?_, ?_, ?_, fun s st => rfl⟩
  · intro s path force now hsf
    constructor
    · intro hskip
      unfold RunState.writeSnapshot
      rw [hsf]
      simp only [if_pos hskip]
    · intro hwrite
      have hcond : ¬((¬force = true) ∧ now - s.lastSnapshotWrite < 1 / 2) := by
        rcases hwrite with hf | hlt
        · intro hc
          exact hc.1 hf
        · intro hc
          exact hlt hc.2
      unfold RunState.writeSnapshot
      rw [hsf]
      simp only [if_neg hcond]
      exact ⟨by trivial, tmpPathOf_ne path⟩
  · intro s force now hsf
    unfold RunState.writeSnapshot
    rw [hsf]
  · intro ops
    induction ops using List.reverseRecOn with
    | nil => rfl
    | append_singleton rest op ih =>
      rw [applyOps, List.foldl_append]
      exact evInv_applyOp _ op ih
  · intro s path code now hsf
    refine ⟨({ s with
        returnCode := some code
        status := if code = 0 then "completed"
          else "failed (" ++ toString code ++ ")"
        doneFlag := true } : RunState).snapshotLocked now, ?_⟩
    unfold RunState.finalizeRun RunState.writeSnapshot
    dsimp only
    rw [hsf]
    dsimp only
    rw [if_neg (by simp :
      ¬((¬(true : Bool) = true) ∧ now - s.lastSnapshotWrite < 1 / 2))]

/-- C4 witness: the write path of the amended persistence law applied at a
concrete state (forced write with a registered state file). -/
theorem c4_snapshot_persistence_witness :
    (({ stateFile := some "st.json" } : RunState).writeSnapshot true
        0).fsEvents =
      ({ stateFile := some "st.json" } : RunState).fsEvents ++
        [FsEv.writeTempFile (tmpPathOf "st.json")
          (({ stateFile := some "st.json" } : RunState).snapshotLocked 0),
         FsEv.replaceFile (tmpPathOf "st.json") "st.json"] :=
  ((c4_snapshot_persistence.1 ({ stateFile := some "st.json" } : RunState)
    "st.json" true 0 rfl).2 (Or.inl rfl)).1

/-! ### Claim C7: cancellation and the interrupt signal -/

/-- Signals the supervisor could send to the child process. -/
inductive ChildSignal
  | sigint
  | sigkill
  | sigterm
deriving DecidableEq

/-- The polling wait loop of `run_cp2k_process`
(`while proc.poll() is None: if state.cancelled(): proc.send_signal(SIGINT);
break; time.sleep(0.1)`), over a finite schedule of observations: at each
iteration the loop reads whether the child has exited and the current value
of the cancellation flag, and the function returns the list of signals
sent.  After sending one interrupt the loop breaks and only waits; the
source contains no terminate/kill call on the child. -/
def superviseSignals : List (Bool × Bool) → List ChildSignal
  | [] => []
  | (exited, cancelFlag) :: rest =>
    if exited then []
    else if cancelFlag then [ChildSignal.sigint]
    else superviseSignals rest

/-- Is the operation `request_cancel`? -/
def StoreOp.isRequestCancelOp : StoreOp → Bool
  | .opRequestCancel => true
  | _ => false

theorem finalizeBlock_cancel (s : RunState) (now : ℚ) :
    (s.finalizeBlock now).cancel_requested = s.cancel_requested := by
  unfold RunState.finalizeBlock
  cases hb : s.currentBlock with
  | none => rfl
  | some b =>
    dsimp only
    split
    · rfl
    · rw [writeSnapshot_cancel]

theorem updateLatestBlock_cancel (s : RunState)
    (values : List (String × Option ℚ)) (now : ℚ) :
    (s.updateLatestBlock values now).cancel_requested =
      s.cancel_requested := by
  unfold RunState.updateLatestBlock
  cases hb : s.currentBlock with
  | some b =>
    dsimp only
    split
    · rw [writeSnapshot_cancel]
    · rfl
  | none =>
    dsimp only
    split
    · rfl
    · split
      · rw [writeSnapshot_cancel]
      · rfl

theorem superviseSignals_le_one (sched : List (Bool × Bool)) :
    (superviseSignals sched).length ≤ 1 ∧
    ChildSignal.sigkill ∉ superviseSignals sched ∧
    ChildSignal.sigterm ∉ superviseSignals sched := by
  induction sched with
  | nil => simp [superviseSignals]
  | cons obs rest ih =>
    obtain ⟨exited, cancelFlag⟩ := obs
    by_cases he : exited = true
    · simp [superviseSignals, he]
    · by_cases hc : cancelFlag = true
      · simp only [superviseSignals, he, hc, Bool.false_eq_true, if_false,
          if_true]
        refine ⟨by simp, by simp, by simp⟩
      · simp only [superviseSignals, he, hc, Bool.false_eq_true, if_false]
        exact ih

/-- C7: the wait loop sends at most one signal over any schedule, and that
signal is never a kill or terminate; requesting cancellation is idempotent
(the flag is set-once), and across every store operation the cancellation
flag is never reset — it is exactly the old flag or-ed with whether the
operation is `request_cancel`. -/
theorem c7_cancellation_idempotent :
    (∀ sched : List (Bool × Bool),
      (superviseSignals sched).length ≤ 1 ∧
      ChildSignal.sigkill ∉ superviseSignals sched ∧
      ChildSignal.sigterm ∉ superviseSignals sched) ∧
    (∀ s : RunState, s.requestCancel.requestCancel = s.requestCancel) ∧
    (∀ s : RunState, s.requestCancel.cancelledFlag = true) ∧
    (∀ (s : RunState) (op : StoreOp),
      (applyOp s op).cancel_requested =
        (s.cancel_requested || op.isRequestCancelOp)) := by
  refine ⟨superviseSignals_le_one, fun s => rfl, fun s => rfl, ?_⟩
  intro s op
  cases op with
  | opStartBlock => simp [StoreOp.isRequestCancelOp, applyOp,
      RunState.startBlock]
  | opSetBlockValues values => simp [StoreOp.isRequestCancelOp, applyOp,
      RunState.setBlockValues]
  | opFinalizeBlock now =>
    show (s.finalizeBlock now).cancel_requested = _
    rw [finalizeBlock_cancel]
    simp [StoreOp.isRequestCancelOp]
  | opUpdateLatestBlock values now =>
    show (s.updateLatestBlock values now).cancel_requested = _
    rw [updateLatestBlock_cancel]
    simp [StoreOp.isRequestCancelOp]
  | opAppendTail line now =>
    show ((_ : RunState).writeSnapshot false now).cancel_requested = _
    rw [writeSnapshot_cancel]
    simp [StoreOp.isRequestCancelOp]
  | opSetPid p => simp [StoreOp.isRequestCancelOp, applyOp, RunState.setPid]
  | opMarkStatus st => simp [StoreOp.isRequestCancelOp, applyOp,
      RunState.markStatus]
  | opFinalizeRun code now =>
    show ((_ : RunState).writeSnapshot true now).cancel_requested = _
    rw [writeSnapshot_cancel]
    simp [StoreOp.isRequestCancelOp]
  | opRequestCancel =>
    simp [StoreOp.isRequestCancelOp, applyOp, RunState.requestCancel]
  | opSetStateFile f => simp [StoreOp.isRequestCancelOp, applyOp,
      RunState.setStateFile]
  | opWriteSnapshot force now =>
    show (s.writeSnapshot force now).cancel_requested = _
    rw [writeSnapshot_cancel]
    simp [StoreOp.isRequestCancelOp]

/-! ### Claim C5: exceptions in the reader task -/

/-- The outcome of the reader loop: the state after the processed prefix,
the lines written to the log file, and the exception text if the loop body
raised while handling a line. -/
structure ReaderOutcome where
  state : RunState
  logLines : List String
  raised : Option String

/-- `reader()` in `run_cp2k_process`: for each line, `append_tail`, then
`parse_line_for_metrics`, then a log write (collected in `logLines`).
`failAt = some (k, msg)` models an exception raised while handling line `k`
(0-based): earlier lines are fully processed and the loop stops there.  The
thread then dies with the exception — Python's threading machinery prints
it to stderr; it is never delivered to the thread that `join()`s. -/
def readerRun : List String → Option (ℕ × String) → ℚ → RunState →
    ReaderOutcome
  | [], _, _, s => ⟨s, [], none⟩
  | _ :: _, some (0, msg), _, s => ⟨s, [], some msg⟩
  | line :: rest, some (k + 1, msg), now, s =>
    let s1 := parseLineForMetrics line now (s.appendTail line now)
    let out := readerRun rest (some (k, msg)) now s1
    ⟨out.state, line :: out.logLines, out.raised⟩
  | line :: rest, none, now, s =>
    let s1 := parseLineForMetrics line now (s.appendTail line now)
    let out := readerRun rest none now s1
    ⟨out.state, line :: out.logLines, out.raised⟩

/-- `run_cp2k_process`, modelled: mark running, set the pid, run the reader
thread to completion (a reader exception is NOT propagated: the thread ends
and `join()` returns normally), wait for the child, and finalize with the
child's own exit code.  Returns the final state, the log lines and the
signals sent by the wait loop. -/
def runCp2kProcessModel (lines : List String) (failAt : Option (ℕ × String))
    (sched : List (Bool × Bool)) (childCode : ℤ) (pid : ℤ) (now : ℚ)
    (s : RunState) : RunState × List String × List ChildSignal :=
  let s1 := (s.markStatus "running").setPid pid
  let out := readerRun lines failAt now s1
  (out.state.finalizeRun childCode now, out.logLines, superviseSignals sched)

/-- `make_runner`'s `worker()`: runs `run_cp2k_process` and catches
exceptions raised in this thread itself — e.g. `Popen` failing to spawn
(`spawnError`; in the source this happens after `mark_status("running")`)
— appending `<dashboard error: ...>` to the tail and finalizing with the
synthetic code 1.  Exceptions inside the nested reader thread never reach
this handler. -/
def workerRun (spawnError : Option String) (lines : List String)
    (failAt : Option (ℕ × String)) (sched : List (Bool × Bool))
    (childCode : ℤ) (pid : ℤ) (now : ℚ) (s : RunState) : RunState :=
  match spawnError with
  | some msg =>
    ((s.markStatus "running").appendTail
      ("<dashboard error: " ++ msg ++ ">") now).finalizeRun 1 now
  | none => (runCp2kProcessModel lines failAt sched childCode pid now s).1

/-- C5 (counterexample): a reader that raises on its first line while the
child exits with code 0 leaves the run "completed" with return code 0 and
an empty tail — the run is not marked failed with a synthetic non-zero
code and no exception text is appended, contradicting the claim. -/
theorem c5_counterexample :
    (workerRun none ["line one"] (some (0, "boom")) [] 0 42 0
      initState).status = "completed" ∧
    (workerRun none ["line one"] (some (0, "boom")) [] 0 42 0
      initState).returnCode = some 0 ∧
    (workerRun none ["line one"] (some (0, "boom")) [] 0 42 0
      initState).tail = [] := by
  exact ⟨rfl, rfl, rfl⟩

theorem readerRun_failAt_state (lines : List String) (k : ℕ) (msg : String)
    (now : ℚ) (s : RunState) :
    (readerRun lines (some (k, msg)) now s).state =
      (readerRun (lines.take k) none now s).state := by
  induction lines generalizing k s with
  | nil => cases k <;> rfl
  | cons line rest ih =>
    cases k with
    | zero => rfl
    | succ n =>
      show (readerRun rest (some (n, msg)) now _).state = _
      rw [ih n _]
      rfl

theorem getLastD_append_single_str (l : List String) (x d : String) :
    (l ++ [x]).getLastD d = x := by
  induction l generalizing d with
  | nil => rfl
  | cons hd tl ih => simp [List.getLastD, ih hd]

theorem drop_append_single (l : List String) (x : String) (k : ℕ)
    (h : k ≤ l.length) :
    (l ++ [x]).drop k = l.drop k ++ [x] := by
  induction l generalizing k with
  | nil =>
    cases k with
    | zero => rfl
    | succ n => simp at h
  | cons hd tl ih =>
    cases k with
    | zero => rfl
    | succ n =>
      simp only [List.length_cons] at h
      show (tl ++ [x]).drop n = tl.drop n ++ [x]
      exact ih n (by omega)

theorem dequePush_getLastD (maxlen : ℕ) (xs : List String) (x d : String)
    (hml : 0 < maxlen) :
    (dequePush maxlen xs x).getLastD d = x := by
  unfold dequePush
  dsimp only
  split
  · rename_i hlen
    have hb : (xs ++ [x]).length - maxlen ≤ xs.length := by
      simp only [List.length_append, List.length_singleton] at hlen ⊢
      omega
    rw [drop_append_single xs x _ hb]
    exact getLastD_append_single_str _ _ _
  · exact getLastD_append_single_str _ _ _

theorem rstripNl_append_gt (cs : List Char) :
    rstripNl (cs ++ ['>']) = cs ++ ['>'] := by
  unfold rstripNl
  rw [List.reverse_append]
  simp [List.dropWhile]

theorem diagnostic_rstrip (msg : String) :
    String.mk (rstripNl ("<dashboard error: " ++ msg ++ ">").toList) =
      "<dashboard error: " ++ msg ++ ">" := by
  have h1 : ("<dashboard error: " ++ msg ++ ">").toList =
      ("<dashboard error: " ++ msg).toList ++ ['>'] := by
    show (("<dashboard error: " ++ msg) ++ ">").data = _
    rw [String.data_append]
    rfl
  rw [h1, rstripNl_append_gt, ← h1]
  rfl

theorem appendTail_tail_getLastD (s : RunState) (line : String) (now : ℚ)
    (d : String) :
    (s.appendTail line now).tail.getLastD d =
      String.mk (rstripNl line.toList) := by
  unfold RunState.appendTail
  rw [writeSnapshot_tail]
  exact dequePush_getLastD 100 s.tail _ d (by omega)

/-- C5 (amended): an exception inside the reader thread is not caught by
the worker's handler — a reader failing at line `k` makes the whole
supervised run behave exactly as if the output stream had ended after `k`
lines: the run still finalizes with the child's own exit code, with no
synthetic failure code and no diagnostic appended.  Only an exception in
the worker thread itself (e.g. a spawn failure) is caught: its text is
appended to the tail as `<dashboard error: ...>` and the run is finalized
with the synthetic code 1. -/
theorem c5_reader_fault_not_caught :
    (∀ (lines : List String) (k : ℕ) (msg : String)
        (sched : List (Bool × Bool)) (childCode pid : ℤ) (now : ℚ)
        (s : RunState),
      workerRun none lines (some (k, msg)) sched childCode pid now s =
        workerRun none (lines.take k) none sched childCode pid now s) ∧
    (∀ (msg : String) (lines : List String) (failAt : Option (ℕ × String))
        (sched : List (Bool × Bool)) (childCode pid : ℤ) (now : ℚ)
        (s : RunState),
      (workerRun (some msg) lines failAt sched childCode pid now s).status =
        "failed (" ++ toString (1 : ℤ) ++ ")" ∧
      (workerRun (some msg) lines failAt sched childCode pid now
        s).returnCode = some 1 ∧
      (workerRun (some msg) lines failAt sched childCode pid now
        s).tail.getLastD "" = "<dashboard error: " ++ msg ++ ">") := by
  constructor
  · intro lines k msg sched childCode pid now s
    unfold workerRun runCp2kProcessModel
    dsimp only
    rw [readerRun_failAt_state]
  · intro msg lines failAt sched childCode pid now s
    refine ⟨?_, ?_, ?_⟩
    · show ((_ : RunState).writeSnapshot true now).status = _
      rw [writeSnapshot_status]
      rfl
    · show ((_ : RunState).writeSnapshot true now).returnCode = _
      rw [writeSnapshot_returnCode]
    · show ((_ : RunState).writeSnapshot true now).tail.getLastD "" = _
      rw [writeSnapshot_tail]
      show ((_ : RunState).appendTail _ now).tail.getLastD "" = _
      rw [appendTail_tail_getLastD]
      exact diagnostic_rstrip msg

/-- C5 witness: the reader-prefix law applied at a concrete input. -/
theorem c5_reader_fault_witness :
    workerRun none ["a", "b"] (some (1, "boom")) [] 7 9 0 initState =
      workerRun none (["a", "b"].take 1) none [] 7 9 0 initState :=
  c5_reader_fault_not_caught.1 ["a", "b"] 1 "boom" [] 7 9 0 initState

/-! ### Claim C6: missing supervised binary -/

/-- `default_inp(mode, profile)` from the source: `None` without a mode,
else `inputs/{mode}_smoke_{profile or "compat"}.inp`. -/
def defaultInp (modeArg : Option String) (profileArg : String) :
    Option String :=
  match modeArg with
  | none => none
  | some m =>
    if m = "" then none
    else some ("inputs/" ++ m ++ "_smoke_" ++
      (if profileArg = "" then "compat" else profileArg) ++ ".inp")

/-- `which(candidate)`: walk the PATH directories in order and return the
first joined path that is an executable file (`os.path.isfile` and
`os.access(..., X_OK)`, abstracted into the `isExecFile` predicate). -/
def whichSearch (candidate : String) (pathDirs : List String)
    (isExecFile : String → Bool) : Option String :=
  match pathDirs with
  | [] => none
  | d :: rest =>
    let p := d ++ "/" ++ candidate
    if isExecFile p then some p
    else whichSearch candidate rest isExecFile

/-- `pathlib.Path(p).stem`: the final path component without its last
suffix (a leading-dot name keeps its dot; exotic multi-dot edge cases
follow the same last-suffix rule). -/
def pathStem (p : String) : String :=
  let nameRev := p.toList.reverse.takeWhile (fun c => c ≠ '/')
  match nameRev.dropWhile (fun c => c ≠ '.') with
  | [] => String.mk nameRev.reverse
  | _ :: restRev =>
    if restRev.isEmpty then String.mk nameRev.reverse
    else String.mk restRev.reverse

/-- The outcome of `main`'s precondition phase, before any side effect. -/
inductive PreOutcome
  | errNoInput
  | errInputMissing (p : String)
  | errNoCp2k
  | proceed (cp2k : String) (inp : String)
deriving DecidableEq

/-- The precondition phase of `main()`: resolve the input path
(`args.inp or default_inp(...)`, empty strings falsy), error if none or if
the input file does not exist; then resolve the binary
(`args.cp2k or which("cp2k.psmp") or which("cp2k")`) and error only when
that whole expression is falsy — an explicitly supplied non-empty path is
accepted without any existence check. -/
def mainPreamble (inpArg : Option String) (modeArg : Option String)
    (profileArg : String) (cp2kArg : Option String)
    (fileExists : String → Bool) (pathDirs : List String)
    (isExecFile : String → Bool) : PreOutcome :=
  let inp := match inpArg with
    | some p => if p = "" then defaultInp modeArg profileArg else some p
    | none => defaultInp modeArg profileArg
  match inp with
  | none => .errNoInput
  | some p =>
    if ¬fileExists p then .errInputMissing p
    else
      let fromPath := fun (_ : Unit) =>
        match whichSearch "cp2k.psmp" pathDirs isExecFile with
        | some c => some c
        | none => whichSearch "cp2k" pathDirs isExecFile
      let cp2k := match cp2kArg with
        | some c => if c = "" then fromPath () else some c
        | none => fromPath ()
      match cp2k with
      | none => .errNoCp2k
      | some c => .proceed c p

/-- Observable side effects of the run phase. -/
inductive RunEvent
  | openLogFile (path : String)
  | spawnProcess (exe : String) (inp : String)
deriving DecidableEq

/-- `basic_run(cp2k, inp, env, logfile)`: the log file is opened for
writing first, then the process is spawned. -/
def basicRunEvents (cp2k inp logfile : String) : List RunEvent :=
  [RunEvent.openLogFile logfile, RunEvent.spawnProcess cp2k inp]

/-- `main()` in the no-dashboard path: the precondition phase, then — only
on `proceed` — the project name (`args.project or Path(inp).stem`), the
log file `f"{project}.out"` and the `basic_run` side effects.  Every error
outcome aborts with a non-zero exit before any event. -/
def mainModel (inpArg : Option String) (modeArg : Option String)
    (profileArg : String) (cp2kArg : Option String)
    (projectArg : Option String) (fileExists : String → Bool)
    (pathDirs : List String) (isExecFile : String → Bool) :
    PreOutcome × List RunEvent :=
  match mainPreamble inpArg modeArg profileArg cp2kArg fileExists pathDirs
      isExecFile with
  | .proceed c p =>
    let project := match projectArg with
      | some pr => if pr = "" then pathStem p else pr
      | none => pathStem p
    (.proceed c p, basicRunEvents c p (project ++ ".out"))
  | r => (r, [])

/-- C6 (counterexample): with an explicitly supplied binary path that does
not exist anywhere (`isExecFile` false on every path, `fileExists` true
only for the input), the supervisor does not fail its preconditions — it
proceeds, and the basic run opens (creates) the log file before the spawn
attempt, contradicting "exits before any process is spawned, and no log
file is created". -/
theorem c6_counterexample :
    mainModel (some "input.inp") none "compat" (some "/nope/cp2k") none
        (fun p => p == "input.inp") [] (fun _ => false) =
      (PreOutcome.proceed "/nope/cp2k" "input.inp",
       [RunEvent.openLogFile "input.out",
        RunEvent.spawnProcess "/nope/cp2k" "input.inp"]) ∧
    (fun _ => false : String → Bool) "/nope/cp2k" = false := by
  exact ⟨rfl, rfl⟩

/-- C6 (amended): only a PATH-resolved binary is existence-checked — when
no `--cp2k` override is given (or it is the empty string) and both PATH
searches fail, `main` exits with a precondition failure before any side
effect: no log file is created and nothing is spawned.  An explicitly
supplied non-empty `--cp2k` path is never checked: the run proceeds with
it, and in the basic-run path the log file is created before the spawn is
attempted. -/
theorem c6_precondition_path_only (inpArg modeArg : Option String)
    (profileArg : String) (projectArg : Option String)
    (fileExists : String → Bool) (pathDirs : List String)
    (isExecFile : String → Bool) :
    (∀ cp2kArg : Option String, cp2kArg = none ∨ cp2kArg = some "" →
      whichSearch "cp2k.psmp" pathDirs isExecFile = none →
      whichSearch "cp2k" pathDirs isExecFile = none →
      (mainModel inpArg modeArg profileArg cp2kArg projectArg fileExists
          pathDirs isExecFile).2 = [] ∧
      ((mainModel inpArg modeArg profileArg cp2kArg projectArg fileExists
          pathDirs isExecFile).1 = .errNoCp2k ∨
       (mainModel inpArg modeArg profileArg cp2kArg projectArg fileExists
          pathDirs isExecFile).1 = .errNoInput ∨
       ∃ p, (mainModel inpArg modeArg profileArg cp2kArg projectArg
          fileExists pathDirs isExecFile).1 = .errInputMissing p)) ∧
    (∀ (c inp : String), c ≠ "" →
      mainPreamble (some inp) modeArg profileArg (some c) fileExists
          pathDirs isExecFile = .proceed c inp ∨
      inp = "" ∨ fileExists inp = false) ∧
    (∀ cp2k inp logfile : String,
      basicRunEvents cp2k inp logfile =
        [RunEvent.openLogFile logfile, RunEvent.spawnProcess cp2k inp]) := by
  refine ⟨?_, ?_, fun cp2k inp logfile => rfl⟩
  · intro cp2kArg hc h1 h2
    have hres : ∀ r : PreOutcome,
        r = .errNoInput ∨ (∃ p, r = .errInputMissing p) ∨ r = .errNoCp2k →
        (mainPreamble inpArg modeArg profileArg cp2kArg fileExists pathDirs
            isExecFile) = r →
        (mainModel inpArg modeArg profileArg cp2kArg projectArg fileExists
            pathDirs isExecFile).2 = [] := by
      intro r hr hm
      unfold mainModel
      rw [hm]
      rcases hr with rfl | ⟨p, rfl⟩ | rfl <;> rfl
    have hpre : mainPreamble inpArg modeArg profileArg cp2kArg fileExists
        pathDirs isExecFile = .errNoInput ∨
        (∃ p, mainPreamble inpArg modeArg profileArg cp2kArg fileExists
          pathDirs isExecFile = .errInputMissing p) ∨
        mainPreamble inpArg modeArg profileArg cp2kArg fileExists pathDirs
          isExecFile = .errNoCp2k := by
      unfold mainPreamble
      dsimp only
      cases hinp : (match inpArg with
        | some p => if p = "" then defaultInp modeArg profileArg else some p
        | none => defaultInp modeArg profileArg) with
      | none => exact Or.inl rfl
      | some p =>
        by_cases hex : fileExists p = true
        · have hfp : (match whichSearch "cp2k.psmp" pathDirs isExecFile with
              | some c => some c
              | none => whichSearch "cp2k" pathDirs isExecFile) =
                (none : Option String) := by
            rw [h1, h2]
          rcases hc with rfl | rfl
          · refine Or.inr (Or.inr ?_)
            dsimp only
            rw [if_neg (show ¬¬(fileExists p = true) by simp [hex]), hfp]
          · refine Or.inr (Or.inr ?_)
            dsimp only
            rw [if_neg (show ¬¬(fileExists p = true) by simp [hex])]
            have hif : (if ("" : String) = "" then
                (match whichSearch "cp2k.psmp" pathDirs isExecFile with
                  | some c => some c
                  | none => whichSearch "cp2k" pathDirs isExecFile)
                else some "") =
                (match whichSearch "cp2k.psmp" pathDirs isExecFile with
                  | some c => some c
                  | none => whichSearch "cp2k" pathDirs isExecFile) :=
              if_pos rfl
            rw [hif, hfp]
        · exact Or.inr (Or.inl ⟨p, by simp [hex]⟩)
    constructor
    · rcases hpre with hm | ⟨p, hm⟩ | hm
      · exact hres _ (Or.inl rfl) hm
      · exact hres _ (Or.inr (Or.inl ⟨p, rfl⟩)) hm
      · exact hres _ (Or.inr (Or.inr rfl)) hm
    · unfold mainModel
      rcases hpre with hm | ⟨p, hm⟩ | hm <;> rw [hm]
      · exact Or.inr (Or.inl rfl)
      · exact Or.inr (Or.inr ⟨p, rfl⟩)
      · exact Or.inl rfl
  · intro c inp hcne
    by_cases hie : inp = ""
    · exact Or.inr (Or.inl hie)
    · by_cases hex : fileExists inp = true
      · left
        unfold mainPreamble
        dsimp only
        rw [if_neg hie]
        simp only [hex, not_true, if_neg (by trivial : ¬False),
          if_neg hcne]
      · exact Or.inr (Or.inr (by simpa using hex))

/-- C6 witness: the PATH-resolution arm applied at a concrete invocation
(no override, empty PATH, existing input): no events, precondition error. -/
theorem c6_precondition_path_only_witness :
    (mainModel (some "input.inp") none "compat" none none
        (fun p => p == "input.inp") [] (fun _ => false)).2 = [] :=
  ((c6_precondition_path_only (some "input.inp") none "compat" none
    (fun p => p == "input.inp") [] (fun _ => false)).1 none (Or.inl rfl)
    rfl rfl).1

end RunCp2k
